import Mathlib

/-!
Verification of the fantasy-map terrain core against its specification.

The development shallowly embeds the TypeScript sources:
* `PerlinNoise`  — src/utils/perlin-noise.ts (seeded gradient noise);
* `Erosion`      — the ErosionResult-producing droplet simulator
  (`Erosion.erode` with erosion/deposit/flow tracking maps);
* `MapTile`      — the tile cache / blending layer of src/map/MapTile.ts,
  modelled with an explicit heap so that in-place mutation of
  `Float32Array`s is observable;
* `MapTileV2`    — the earlier MapTile variant that defines `getHeightAt`;
* `TileManager`  — the blending queue of src/map/TileManager.ts.

JavaScript `number` arithmetic is modelled over `ℚ`; `Math.sqrt` and the
random sources (`Math.random` / the seeded `Random` stream) are oracle
parameters, since the verified properties hold for every value they can
return.  `Float32Array`s are modelled as total functions `ℤ → ℚ`
(out-of-range reads/writes never occur on the executed paths).
-/

namespace PerlinNoise

/-- Smoothing curve `t*t*t*(t*(t*6-15)+10)` (perlin-noise.ts, `fade`). -/
def fade (t : ℚ) : ℚ := t * t * t * (t * (t * 6 - 15) + 10)

/-- Linear interpolation `a + t*(b-a)` (perlin-noise.ts, `lerp`). -/
def lerp (a b t : ℚ) : ℚ := a + t * (b - a)

/-- Gradient function (perlin-noise.ts, `grad`).  `hash & 15` on a JS int32
equals `hash.emod 16`; `(h & 1) === 0` is `h % 2 = 0`, and `(h & 2) === 0`
is `(h / 2) % 2 = 0` for `h ∈ [0, 16)`. -/
def grad (hash : ℤ) (x y : ℚ) : ℚ :=
  let h : ℤ := hash.emod 16
  let u : ℚ := if h < 8 then x else y
  let v : ℚ := if h < 4 then y else if h = 12 ∨ h = 14 then x else 0
  (if h.emod 2 = 0 then u else -u) + (if (h / 2).emod 2 = 0 then v else -v)

/-- A noise instance: the doubled permutation array `p` (512 entries,
`p[i] = p[256+i] = permutation[i]`), modelled as a total function. -/
structure Inst where
  p : ℤ → ℤ

/-- One step of the seeded LCG used by `generatePermutation`:
`state = (state * 9301 + 49297) % 233280` (JS `%` is truncating). -/
def lcgNext (state : ℤ) : ℤ := (state * 9301 + 49297).tmod 233280

/-- One Fisher–Yates swap for loop index `i`: advances the LCG, picks
`j = Math.floor(random() * (i + 1))` and swaps `perm[i]` with `perm[j]`. -/
def fyStep (perm : ℤ → ℤ) (state : ℤ) (i : ℕ) : (ℤ → ℤ) × ℤ :=
  let state' := lcgNext state
  let j : ℤ := ⌊(state' : ℚ) / 233280 * ((i : ℚ) + 1)⌋
  (fun k => if k = (i : ℤ) then perm j else if k = j then perm (i : ℤ) else perm k,
   state')

/-- Fisher–Yates shuffle, counting `i` down from the given start to 1
(the loop `for (let i = 255; i > 0; i--)`). -/
def fyGo (perm : ℤ → ℤ) (state : ℤ) : ℕ → (ℤ → ℤ)
  | 0 => perm
  | k + 1 =>
    let r := fyStep perm state (k + 1)
    fyGo r.1 r.2 k

/-- Seeded permutation table (perlin-noise.ts, `generatePermutation`):
identity table `[0..255]` shuffled by the seeded LCG. -/
def generatePermutation (seed : ℤ) : ℤ → ℤ := fyGo (fun k => k) seed 255

/-- Constructor (perlin-noise.ts): builds the permutation for `seed` and
doubles it into `p` (`p[i] = permutation[i & 255]` for the used range). -/
def construct (seed : ℤ) : Inst :=
  ⟨fun i => generatePermutation seed (i.emod 256)⟩

/-- 2D gradient noise (perlin-noise.ts, `noise2D`).  `Math.floor(x) & 255`
equals `⌊x⌋.emod 256`; the method only reads `this.p`, so it is a pure
function of the instance. -/
def noise2D (n : Inst) (x y : ℚ) : ℚ :=
  let X : ℤ := (⌊x⌋ : ℤ).emod 256
  let Y : ℤ := (⌊y⌋ : ℤ).emod 256
  let xf : ℚ := x - ⌊x⌋
  let yf : ℚ := y - ⌊y⌋
  let u := fade xf
  let v := fade yf
  let A := n.p X + Y
  let AA := n.p A
  let AB := n.p (A + 1)
  let B := n.p (X + 1) + Y
  let BA := n.p B
  let BB := n.p (B + 1)
  lerp
    (lerp (grad (n.p AA) xf yf) (grad (n.p BA) (xf - 1) yf) u)
    (lerp (grad (n.p AB) xf (yf - 1)) (grad (n.p BB) (xf - 1) (yf - 1)) u)
    v

/-- Accumulator loop of `fractalNoise2D`: threads
`(value, amplitude, frequency, maxValue)` through the remaining octaves. -/
def fractalGo (n : Inst) (x y persistence lacunarity : ℚ) :
    ℕ → ℚ → ℚ → ℚ → ℚ → ℚ × ℚ
  | 0, value, _, _, maxValue => (value, maxValue)
  | k + 1, value, amplitude, frequency, maxValue =>
    fractalGo n x y persistence lacunarity k
      (value + noise2D n (x * frequency) (y * frequency) * amplitude)
      (amplitude * persistence) (frequency * lacunarity)
      (maxValue + amplitude)

/-- Fractal (multi-octave) noise (perlin-noise.ts, `fractalNoise2D`):
runs the octave loop from `value=0, amplitude=1, frequency=1, maxValue=0`
and returns `value / maxValue`. -/
def fractalNoise2D (n : Inst) (x y : ℚ) (octaves : ℕ)
    (persistence lacunarity : ℚ) : ℚ :=
  let r := fractalGo n x y persistence lacunarity octaves 0 1 1 0
  r.1 / r.2

/-- Default-argument form `fractalNoise2D(x, y)` (octaves 4,
persistence 0.5, lacunarity 2.0). -/
def fractalNoise2Dd (n : Inst) (x y : ℚ) : ℚ :=
  fractalNoise2D n x y 4 (1/2) 2

/-- Per-seed instance pool (MapTile.ts, static `noiseGenerators` together
with `getNoiseGenerator`): returns the cached instance for `seed`, or
constructs and caches a fresh one. -/
def getNoiseGenerator (pool : ℤ → Option Inst) (seed : ℤ) :
    Inst × (ℤ → Option Inst) :=
  match pool seed with
  | some n => (n, pool)
  | none => (construct seed, fun s => if s = seed then some (construct seed) else pool s)

/-- Pool healthiness: every cached instance is the one `construct` builds
for its seed (holds for the empty pool and is preserved by lookups). -/
def PoolInv (pool : ℤ → Option Inst) : Prop :=
  ∀ s n, pool s = some n → n = construct s

end PerlinNoise

namespace PerlinNoise

/-- The fade curve is symmetric: `fade (1 - t) = 1 - fade t`. -/
theorem fade_symm (t : ℚ) : fade (1 - t) = 1 - fade t := by
  unfold fade; ring

/-- Quadratic factor of the fade curve is positive. -/
theorem fade_factor_pos (t : ℚ) : 0 < t * (t * 6 - 15) + 10 := by
  nlinarith [sq_nonneg (t - 5/4)]

/-- Fade is nonnegative on `[0, 1]`. -/
theorem fade_nonneg {t : ℚ} (h0 : 0 ≤ t) (_h1 : t ≤ 1) : 0 ≤ fade t := by
  have h3 : 0 ≤ t * t * t := by positivity
  have hb := fade_factor_pos t
  unfold fade; nlinarith

/-- Fade is at most 1 on `[0, 1]`. -/
theorem fade_le_one {t : ℚ} (h0 : 0 ≤ t) (h1 : t ≤ 1) : fade t ≤ 1 := by
  have := @fade_nonneg (1 - t) (by linarith) (by linarith)
  rw [fade_symm] at this; linarith

/-- Core estimate behind the output range: for `a ∈ [0,1]`,
`a + fade a * (1 - 2a) ≤ 1/2`. -/
theorem half_bound {a : ℚ} (_h0 : 0 ≤ a) (_h1 : a ≤ 1) :
    a + fade a * (1 - 2*a) ≤ 1/2 := by
  have hq : 0 ≤ 6*(a*(1-a))^2 + 2*(a*(1-a)) + 1 := by
    nlinarith [sq_nonneg (6*(a*(1-a)) + 1)]
  have hid : a + fade a * (1 - 2*a)
      = 1/2 - (2*a - 1)^2 * (6*(a*(1-a))^2 + 2*(a*(1-a)) + 1) / 2 := by
    unfold fade; ring
  nlinarith [sq_nonneg (2*a - 1), mul_nonneg (sq_nonneg (2*a - 1)) hq]

/-- The gradient function is bounded by `|x| + |y|` for every hash. -/
theorem grad_abs_le (hash : ℤ) (x y : ℚ) : |grad hash x y| ≤ |x| + |y| := by
  have h0 : 0 ≤ hash.emod 16 := Int.emod_nonneg hash (by norm_num)
  have h16 : hash.emod 16 < 16 := Int.emod_lt_of_pos hash (by norm_num)
  simp only [grad]
  rw [abs_le]
  constructor <;>
    (split_ifs <;>
      (rcases abs_cases x with ⟨hx, _⟩ | ⟨hx, _⟩ <;>
       rcases abs_cases y with ⟨hy, _⟩ | ⟨hy, _⟩ <;>
        (rw [hx, hy]
         try first
           | linarith [abs_nonneg x, abs_nonneg y]
           | (exfalso; omega))))

/-- Interpolation estimate: if `|a| ≤ A`, `|b| ≤ B` and `t ∈ [0,1]`,
then `|lerp a b t| ≤ (1-t)*A + t*B`. -/
theorem abs_lerp_le {a b t A B : ℚ} (ha : |a| ≤ A) (hb : |b| ≤ B)
    (ht0 : 0 ≤ t) (ht1 : t ≤ 1) : |lerp a b t| ≤ (1 - t) * A + t * B := by
  have h1 : lerp a b t = (1 - t) * a + t * b := by unfold lerp; ring
  have h2 : |(1 - t) * a + t * b| ≤ (1 - t) * |a| + t * |b| := by
    calc |(1 - t) * a + t * b| ≤ |(1 - t) * a| + |t * b| := abs_add _ _
      _ = (1 - t) * |a| + t * |b| := by
          rw [abs_mul, abs_mul, abs_of_nonneg (by linarith : (0:ℚ) ≤ 1 - t),
            abs_of_nonneg ht0]
  have h3 : (1 - t) * |a| + t * |b| ≤ (1 - t) * A + t * B := by
    have := mul_le_mul_of_nonneg_left ha (by linarith : (0:ℚ) ≤ 1 - t)
    have := mul_le_mul_of_nonneg_left hb ht0
    linarith
  rw [h1]; exact h2.trans h3

/-- Abstract form of the range bound for one `noise2D` evaluation: any
fade-weighted bilinear blend of four corner gradients whose absolute
values obey the corner estimates stays within `[-1, 1]`. -/
theorem noise_core_bound (g00 g10 g01 g11 xf yf : ℚ)
    (hx0 : 0 ≤ xf) (hx1 : xf ≤ 1) (hy0 : 0 ≤ yf) (hy1 : yf ≤ 1)
    (b00 : |g00| ≤ xf + yf) (b10 : |g10| ≤ (1 - xf) + yf)
    (b01 : |g01| ≤ xf + (1 - yf)) (b11 : |g11| ≤ (1 - xf) + (1 - yf)) :
    |lerp (lerp g00 g10 (fade xf)) (lerp g01 g11 (fade xf)) (fade yf)| ≤ 1 := by
  have hu0 : 0 ≤ fade xf := fade_nonneg hx0 hx1
  have hu1 : fade xf ≤ 1 := fade_le_one hx0 hx1
  have hv0 : 0 ≤ fade yf := fade_nonneg hy0 hy1
  have hv1 : fade yf ≤ 1 := fade_le_one hy0 hy1
  have htot := abs_lerp_le (abs_lerp_le b00 b10 hu0 hu1)
    (abs_lerp_le b01 b11 hu0 hu1) hv0 hv1
  refine htot.trans ?_
  nlinarith [half_bound hx0 hx1, half_bound hy0 hy1]

/-- The raw gradient noise is bounded: `|noise2D n x y| ≤ 1` for every
instance and every input. -/
theorem noise2D_abs_le (n : Inst) (x y : ℚ) : |noise2D n x y| ≤ 1 := by
  have hx0 : (0:ℚ) ≤ x - ⌊x⌋ := by linarith [Int.floor_le x]
  have hx1 : x - (⌊x⌋ : ℚ) ≤ 1 := by linarith [Int.lt_floor_add_one x]
  have hy0 : (0:ℚ) ≤ y - ⌊y⌋ := by linarith [Int.floor_le y]
  have hy1 : y - (⌊y⌋ : ℚ) ≤ 1 := by linarith [Int.lt_floor_add_one y]
  have hsub : ∀ a : ℚ, a - 1 ≤ 0 → |a - 1| = 1 - a := by
    intro a ha; rw [abs_of_nonpos ha]; ring
  have hval : noise2D n x y
      = lerp
          (lerp (grad (n.p (n.p (n.p ((⌊x⌋ : ℤ).emod 256) + (⌊y⌋ : ℤ).emod 256)))
              (x - ⌊x⌋) (y - ⌊y⌋))
            (grad (n.p (n.p (n.p (((⌊x⌋ : ℤ).emod 256) + 1) + (⌊y⌋ : ℤ).emod 256)))
              (x - ⌊x⌋ - 1) (y - ⌊y⌋))
            (fade (x - ⌊x⌋)))
          (lerp (grad (n.p (n.p (n.p ((⌊x⌋ : ℤ).emod 256) + (⌊y⌋ : ℤ).emod 256 + 1)))
              (x - ⌊x⌋) (y - ⌊y⌋ - 1))
            (grad (n.p (n.p (n.p (((⌊x⌋ : ℤ).emod 256) + 1) + (⌊y⌋ : ℤ).emod 256 + 1)))
              (x - ⌊x⌋ - 1) (y - ⌊y⌋ - 1))
            (fade (x - ⌊x⌋)))
          (fade (y - ⌊y⌋)) := rfl
  rw [hval]
  apply noise_core_bound _ _ _ _ _ _ hx0 hx1 hy0 hy1
  · have h := grad_abs_le (n.p (n.p (n.p ((⌊x⌋ : ℤ).emod 256) + (⌊y⌋ : ℤ).emod 256)))
      (x - ⌊x⌋) (y - ⌊y⌋)
    rw [abs_of_nonneg hx0, abs_of_nonneg hy0] at h
    exact h
  · have h := grad_abs_le
      (n.p (n.p (n.p (((⌊x⌋ : ℤ).emod 256) + 1) + (⌊y⌋ : ℤ).emod 256)))
      (x - ⌊x⌋ - 1) (y - ⌊y⌋)
    rw [hsub (x - ⌊x⌋) (by linarith), abs_of_nonneg hy0] at h
    exact h
  · have h := grad_abs_le
      (n.p (n.p (n.p ((⌊x⌋ : ℤ).emod 256) + (⌊y⌋ : ℤ).emod 256 + 1)))
      (x - ⌊x⌋) (y - ⌊y⌋ - 1)
    rw [abs_of_nonneg hx0, hsub (y - ⌊y⌋) (by linarith)] at h
    exact h
  · have h := grad_abs_le
      (n.p (n.p (n.p (((⌊x⌋ : ℤ).emod 256) + 1) + (⌊y⌋ : ℤ).emod 256 + 1)))
      (x - ⌊x⌋ - 1) (y - ⌊y⌋ - 1)
    rw [hsub (x - ⌊x⌋) (by linarith), hsub (y - ⌊y⌋) (by linarith)] at h
    exact h

end PerlinNoise

namespace PerlinNoise

/-- Closed form of the first component of the octave loop. -/
theorem fractalGo_fst (n : Inst) (x y pers lac : ℚ) :
    ∀ (k : ℕ) (v a f m : ℚ),
      (fractalGo n x y pers lac k v a f m).1
        = v + ∑ i in Finset.range k,
            noise2D n (x * (f * lac ^ i)) (y * (f * lac ^ i)) * (a * pers ^ i) := by
  intro k
  induction k with
  | zero => intro v a f m; simp [fractalGo]
  | succ k ih =>
    intro v a f m
    rw [fractalGo, ih]
    rw [Finset.sum_range_succ']
    have harg : ∀ i : ℕ,
        noise2D n (x * (f * lac ^ (i+1))) (y * (f * lac ^ (i+1))) * (a * pers ^ (i+1))
          = noise2D n (x * (f * lac * lac ^ i)) (y * (f * lac * lac ^ i))
            * (a * pers * pers ^ i) := by
      intro i
      have h1 : x * (f * lac ^ (i+1)) = x * (f * lac * lac ^ i) := by ring
      have h2 : y * (f * lac ^ (i+1)) = y * (f * lac * lac ^ i) := by ring
      rw [h1, h2]; ring
    rw [Finset.sum_congr rfl (fun i _ => harg i)]
    simp only [pow_zero, mul_one]
    ring

/-- Closed form of the second component (`maxValue`) of the octave loop. -/
theorem fractalGo_snd (n : Inst) (x y pers lac : ℚ) :
    ∀ (k : ℕ) (v a f m : ℚ),
      (fractalGo n x y pers lac k v a f m).2
        = m + a * ∑ i in Finset.range k, pers ^ i := by
  intro k
  induction k with
  | zero => intro v a f m; simp [fractalGo]
  | succ k ih =>
    intro v a f m
    rw [fractalGo, ih]
    rw [Finset.sum_range_succ']
    have harg : ∀ i : ℕ, (pers : ℚ) ^ (i+1) = pers * pers ^ i := by
      intro i; ring
    rw [Finset.sum_congr rfl (fun i _ => harg i)]
    rw [Finset.mul_sum]
    have h2 : ∀ i : ℕ, a * pers * pers ^ i = a * (pers * pers ^ i) := by
      intro i; ring
    rw [mul_add, Finset.mul_sum]
    rw [Finset.sum_congr rfl (fun i _ => (h2 i).symm)]
    ring

end PerlinNoise

/-- C7: for every seed, the noise generator obtained from the per-seed pool
is exactly the instance `construct` builds for that seed, the pool stays
healthy, and therefore `sample` (`noise2D`) and `fractalSample`
(`fractalNoise2D`) agree bit-for-bit with a fresh instance of the same
seed at every input.  Both methods are pure functions of the instance in
this embedding (their bodies only read `this.p`), so repeated calls on one
instance trivially return identical values and mutate no state. -/
theorem claim_C7_noise_determinism (pool : ℤ → Option PerlinNoise.Inst)
    (seed : ℤ) (x y pers lac : ℚ) (oct : ℕ)
    (hpool : PerlinNoise.PoolInv pool) :
    (PerlinNoise.getNoiseGenerator pool seed).1 = PerlinNoise.construct seed
    ∧ PerlinNoise.PoolInv (PerlinNoise.getNoiseGenerator pool seed).2
    ∧ PerlinNoise.noise2D (PerlinNoise.getNoiseGenerator pool seed).1 x y
        = PerlinNoise.noise2D (PerlinNoise.construct seed) x y
    ∧ PerlinNoise.fractalNoise2D (PerlinNoise.getNoiseGenerator pool seed).1
        x y oct pers lac
        = PerlinNoise.fractalNoise2D (PerlinNoise.construct seed) x y oct pers lac := by
  have hinst : (PerlinNoise.getNoiseGenerator pool seed).1
      = PerlinNoise.construct seed := by
    unfold PerlinNoise.getNoiseGenerator
    cases hc : pool seed with
    | none => simp
    | some n => simpa using hpool seed n hc
  refine ⟨hinst, ?_, by rw [hinst], by rw [hinst]⟩
  intro s m hm
  unfold PerlinNoise.getNoiseGenerator at hm
  cases hc : pool seed with
  | none =>
    rw [hc] at hm
    simp only at hm
    split at hm
    · next heq =>
        have h1 : PerlinNoise.construct seed = m := Option.some.inj hm
        rw [heq, ← h1]
    · exact hpool s m hm
  | some n =>
    rw [hc] at hm
    exact hpool s m hm

/-- Witness for C7 at a concrete input: the empty pool is healthy, and the
pool lookup for seed 12345 returns the freshly constructed instance. -/
theorem claim_C7_noise_determinism_witness :
    (PerlinNoise.getNoiseGenerator (fun _ => none) 12345).1
      = PerlinNoise.construct 12345 := by
  have hinv : PerlinNoise.PoolInv (fun _ => none) := by
    intro s n h; cases h
  exact (claim_C7_noise_determinism (fun _ => none) 12345 0 0 (1/2) 2 4 hinv).1

/-- C8: for every instance, `fractalSample(x, y, octaves, persistence,
lacunarity)` equals the amplitude-weighted sum of `octaves` raw samples at
geometrically scaled frequencies, normalized by the total amplitude, and
the normalized result always lies in `[-1, 1]`. -/
theorem claim_C8_fractal_sum_and_range (n : PerlinNoise.Inst)
    (x y pers lac : ℚ) (oct : ℕ)
    (hoct : 1 ≤ oct) (hp0 : 0 < pers) (_hp1 : pers ≤ 1) :
    PerlinNoise.fractalNoise2D n x y oct pers lac
      = (∑ i in Finset.range oct,
          PerlinNoise.noise2D n (x * lac ^ i) (y * lac ^ i) * pers ^ i)
        / (∑ i in Finset.range oct, pers ^ i)
    ∧ |PerlinNoise.fractalNoise2D n x y oct pers lac| ≤ 1 := by
  have hfst : (PerlinNoise.fractalGo n x y pers lac oct 0 1 1 0).1
      = ∑ i in Finset.range oct,
          PerlinNoise.noise2D n (x * lac ^ i) (y * lac ^ i) * pers ^ i := by
    rw [PerlinNoise.fractalGo_fst]
    simp only [one_mul, zero_add]
  have hsnd : (PerlinNoise.fractalGo n x y pers lac oct 0 1 1 0).2
      = ∑ i in Finset.range oct, pers ^ i := by
    rw [PerlinNoise.fractalGo_snd]
    simp only [one_mul, zero_add]
  have heq : PerlinNoise.fractalNoise2D n x y oct pers lac
      = (∑ i in Finset.range oct,
          PerlinNoise.noise2D n (x * lac ^ i) (y * lac ^ i) * pers ^ i)
        / (∑ i in Finset.range oct, pers ^ i) := by
    simp only [PerlinNoise.fractalNoise2D]
    rw [hfst, hsnd]
  refine ⟨heq, ?_⟩
  have hden1 : (1:ℚ) ≤ ∑ i in Finset.range oct, pers ^ i := by
    have h0mem : (0:ℕ) ∈ Finset.range oct := Finset.mem_range.mpr (by omega)
    have hone : (fun i => pers ^ i) 0 ≤ ∑ i in Finset.range oct, pers ^ i :=
      Finset.single_le_sum (fun i _ => (pow_pos hp0 i).le) h0mem
    simpa using hone
  have hden0 : (0:ℚ) < ∑ i in Finset.range oct, pers ^ i := by linarith
  have hnum : |∑ i in Finset.range oct,
      PerlinNoise.noise2D n (x * lac ^ i) (y * lac ^ i) * pers ^ i|
      ≤ ∑ i in Finset.range oct, pers ^ i := by
    calc |∑ i in Finset.range oct,
        PerlinNoise.noise2D n (x * lac ^ i) (y * lac ^ i) * pers ^ i|
        ≤ ∑ i in Finset.range oct,
            |PerlinNoise.noise2D n (x * lac ^ i) (y * lac ^ i) * pers ^ i| :=
          Finset.abs_sum_le_sum_abs _ _
      _ ≤ ∑ i in Finset.range oct, pers ^ i := by
          apply Finset.sum_le_sum
          intro i _
          rw [abs_mul, abs_of_nonneg (pow_pos hp0 i).le]
          have hni := PerlinNoise.noise2D_abs_le n (x * lac ^ i) (y * lac ^ i)
          have hpow0 : (0:ℚ) ≤ pers ^ i := (pow_pos hp0 i).le
          nlinarith [abs_nonneg (PerlinNoise.noise2D n (x * lac ^ i) (y * lac ^ i))]
  rw [heq, abs_div, abs_of_pos hden0]
  rw [div_le_one hden0]
  exact hnum

/-- Witness for C8 at concrete inputs (octaves 4, persistence 1/2,
lacunarity 2, the all-zero permutation table). -/
theorem claim_C8_fractal_sum_and_range_witness :
    PerlinNoise.fractalNoise2D ⟨fun _ => 0⟩ 0 0 4 (1/2) 2
      = (∑ i in Finset.range 4,
          PerlinNoise.noise2D ⟨fun _ => 0⟩ (0 * 2 ^ i) (0 * 2 ^ i) * (1/2) ^ i)
        / (∑ i in Finset.range 4, ((1:ℚ)/2) ^ i)
    ∧ |PerlinNoise.fractalNoise2D ⟨fun _ => 0⟩ 0 0 4 (1/2) 2| ≤ 1 :=
  claim_C8_fractal_sum_and_range ⟨fun _ => 0⟩ 0 0 (1/2) 2 4
    (by norm_num) (by norm_num) (by norm_num)

/-- Heightmap / tracking-map contents: a `Float32Array` modelled as a total
function from flat index to value. -/
abbrev HMap := ℤ → ℚ

namespace Erosion

/-- Erosion parameters (the public fields of the `Erosion` class:
`inertia`, `minSlope`, `capacity`, `deposition`, `erosion`, `gravity`,
`evaporation`; the `radius` field is unused by this variant of `erode`). -/
structure Params where
  inertia : ℚ
  minSlope : ℚ
  capacity : ℚ
  deposition : ℚ
  erosionRate : ℚ
  gravity : ℚ
  evaporation : ℚ

/-- Class-default parameter values (0.05, 0.01, 4, 0.1, 0.1, 4, 0.02). -/
def defaultParams : Params :=
  ⟨1/20, 1/100, 4, 1/10, 1/10, 4, 1/50⟩

/-- One `+=` on a flat array cell. -/
def bump (m : HMap) (i : ℤ) (v : ℚ) : HMap :=
  fun z => if z = i then m z + v else m z

/-- Bilinear accumulation into a tracking map (`Erosion.addToMap`):
adds `amount` to the four corners of the cell `(x, y)` with bilinear
weights derived from the in-cell offsets. -/
def addToMap (targetMap : HMap) (width : ℤ) (x y : ℤ)
    (offsetX offsetY amount : ℚ) : HMap :=
  bump (bump (bump (bump targetMap
    (y * width + x) (amount * (1 - offsetX) * (1 - offsetY)))
    (y * width + x + 1) (amount * offsetX * (1 - offsetY)))
    (y * width + x + width) (amount * (1 - offsetX) * offsetY))
    (y * width + x + width + 1) (amount * offsetX * offsetY)

/-- Bilinear deposition onto the height map (`Erosion.deposit`);
the body is the same four-corner update as `addToMap`. -/
def deposit (map : HMap) (mapWidth : ℤ) (x y : ℤ)
    (offsetX offsetY amount : ℚ) : HMap :=
  bump (bump (bump (bump map
    (y * mapWidth + x) (amount * (1 - offsetX) * (1 - offsetY)))
    (y * mapWidth + x + 1) (amount * offsetX * (1 - offsetY)))
    (y * mapWidth + x + mapWidth) (amount * (1 - offsetX) * offsetY))
    (y * mapWidth + x + mapWidth + 1) (amount * offsetX * offsetY)

/-- Bilinear height and gradient sample
(`Erosion.calculateHeightAndGradient`): returns
`(height, gradientX, gradientY)` at a continuous position. -/
def calculateHeightAndGradient (map : HMap) (mapWidth : ℤ)
    (posX posY : ℚ) : ℚ × ℚ × ℚ :=
  let coordX : ℤ := ⌊posX⌋
  let coordY : ℤ := ⌊posY⌋
  let x : ℚ := posX - coordX
  let y : ℚ := posY - coordY
  let idx : ℤ := coordY * mapWidth + coordX
  let h00 := map idx
  let h10 := map (idx + 1)
  let h01 := map (idx + mapWidth)
  let h11 := map (idx + mapWidth + 1)
  (h00 * (1 - x) * (1 - y) + h10 * x * (1 - y) + h01 * (1 - x) * y + h11 * x * y,
   (h10 - h00) * (1 - y) + (h11 - h01) * y,
   (h01 - h00) * (1 - x) + (h11 - h10) * x)

/-- A water droplet's mutable locals inside the iteration loop. -/
structure Droplet where
  posX : ℚ
  posY : ℚ
  dirX : ℚ
  dirY : ℚ
  speed : ℚ
  water : ℚ
  sediment : ℚ

/-- Height map being eroded in place, together with the three tracking
maps of the `ErosionResult`. -/
structure SimState where
  map : HMap
  erosionMap : HMap
  depositMap : HMap
  flowMap : HMap

/-- Sediment capacity as computed at every droplet step of this simulator:
`Math.max(-diff * speed * water * this.capacity, this.minSlope)`. -/
def sedimentCapacity (p : Params) (diff speed water : ℚ) : ℚ :=
  max (-diff * speed * water * p.capacity) p.minSlope

/-- Sediment capacity as the specification words it
(`capacity = max(-heightDelta, minSlope) * speed * water * capacityFactor`;
this is also the formula the optimized `Erosion.erode` / `erodeFast` of
src/utils/erosion.ts uses: `Math.max(-heightDiff, minSlope) * speed *
water * capacityFactor`). -/
def sedimentCapacitySpec (p : Params) (diff speed water : ℚ) : ℚ :=
  max (-diff) p.minSlope * speed * water * p.capacity

/-- Direction update of one droplet step: blend the old direction with the
negative gradient by `inertia`, then normalize unless the length is zero
(`if (len !== 0) { dirX /= len; dirY /= len }`).  `Math.sqrt` is the
oracle parameter. -/
def dropletDir (p : Params) (sqrtFn : ℚ → ℚ) (map : HMap) (width : ℤ)
    (d : Droplet) : ℚ × ℚ :=
  let hd := calculateHeightAndGradient map width d.posX d.posY
  let dirX := d.dirX * p.inertia - hd.2.1 * (1 - p.inertia)
  let dirY := d.dirY * p.inertia - hd.2.2 * (1 - p.inertia)
  let len := sqrtFn (dirX * dirX + dirY * dirY)
  if len ≠ 0 then (dirX / len, dirY / len) else (dirX, dirY)

/-- Height delta of one droplet step: bilinear height at the advanced
position minus height at the old position (`diff`). -/
def dropletDiff (p : Params) (sqrtFn : ℚ → ℚ) (map : HMap) (width : ℤ)
    (d : Droplet) : ℚ :=
  let dir := dropletDir p sqrtFn map width d
  (calculateHeightAndGradient map width (d.posX + dir.1) (d.posY + dir.2)).1
    - (calculateHeightAndGradient map width d.posX d.posY).1

/-- One iteration of the droplet lifetime loop of `Erosion.erode`
(part of the body of the `for (let step = 0; step < 30; step++)` loop).
Returns the updated maps, the updated droplet, and `false` when the
droplet left the map (the `break`).  Water is accumulated into `flowMap`
at the old cell before the move, exactly as in the source. -/
def dropletStep (p : Params) (sqrtFn : ℚ → ℚ) (width height : ℤ)
    (s : SimState) (d : Droplet) : SimState × Droplet × Bool :=
  let nodeX : ℤ := ⌊d.posX⌋
  let nodeY : ℤ := ⌊d.posY⌋
  let cellOffsetX := d.posX - nodeX
  let cellOffsetY := d.posY - nodeY
  let flowMap' := addToMap s.flowMap width nodeX nodeY cellOffsetX cellOffsetY d.water
  let dir := dropletDir p sqrtFn s.map width d
  let posX' := d.posX + dir.1
  let posY' := d.posY + dir.2
  if posX' < 0 ∨ posX' ≥ (width : ℚ) - 1 ∨ posY' < 0 ∨ posY' ≥ (height : ℚ) - 1 then
    ({ s with flowMap := flowMap' },
     { d with posX := posX', posY := posY', dirX := dir.1, dirY := dir.2 }, false)
  else
    let diff := dropletDiff p sqrtFn s.map width d
    let cap := sedimentCapacity p diff d.speed d.water
    let speed' := sqrtFn (max 0 (d.speed * d.speed - diff * p.gravity))
    let water' := d.water * (1 - p.evaporation)
    if d.sediment > cap ∨ diff > 0 then
      let amount := if diff > 0 then min diff d.sediment
                    else (d.sediment - cap) * p.deposition
      ({ map := deposit s.map width nodeX nodeY cellOffsetX cellOffsetY amount,
         erosionMap := s.erosionMap,
         depositMap := addToMap s.depositMap width nodeX nodeY cellOffsetX cellOffsetY amount,
         flowMap := flowMap' },
       { posX := posX', posY := posY', dirX := dir.1, dirY := dir.2,
         speed := speed', water := water', sediment := d.sediment - amount }, true)
    else
      let amount := min ((cap - d.sediment) * p.erosionRate) (-diff)
      ({ map := deposit s.map width nodeX nodeY cellOffsetX cellOffsetY (-amount),
         erosionMap := addToMap s.erosionMap width nodeX nodeY cellOffsetX cellOffsetY amount,
         depositMap := s.depositMap,
         flowMap := flowMap' },
       { posX := posX', posY := posY', dirX := dir.1, dirY := dir.2,
         speed := speed', water := water', sediment := d.sediment + amount }, true)

/-- The droplet lifetime loop (30 steps maximum, early exit on `break`). -/
def runDroplet (p : Params) (sqrtFn : ℚ → ℚ) (width height : ℤ) :
    ℕ → SimState → Droplet → SimState
  | 0, s, _ => s
  | k + 1, s, d =>
    let r := dropletStep p sqrtFn width height s d
    if r.2.2 then runDroplet p sqrtFn width height k r.1 r.2.1 else r.1

/-- The droplet spawning loop of `Erosion.erode`: droplet `i` spawns at
`posY = random() * (height - 1)`, `posX = random() * (width - 1)` (two
sequential draws from the seeded stream, `posY` first) with direction 0,
speed 1, water 1, sediment 0. -/
def erodeGo (p : Params) (sqrtFn : ℚ → ℚ) (rand : ℕ → ℚ) (width height : ℤ) :
    ℕ → ℕ → SimState → SimState
  | 0, _, s => s
  | cnt + 1, i, s =>
    let posY := rand (2 * i) * ((height : ℚ) - 1)
    let posX := rand (2 * i + 1) * ((width : ℚ) - 1)
    let d : Droplet := ⟨posX, posY, 0, 0, 1, 1, 0⟩
    erodeGo p sqrtFn rand width height cnt (i + 1)
      (runDroplet p sqrtFn width height 30 s d)

/-- Main erosion entry point (`Erosion.erode`): simulates `iterations`
droplets over the map, starting from zeroed erosion/deposit/flow tracking
maps; returns the mutated height map together with the `ErosionResult`
maps.  A non-positive `iterations` runs zero droplets (the JS `for` loop
body never executes). -/
def erode (p : Params) (sqrtFn : ℚ → ℚ) (rand : ℕ → ℚ) (map : HMap)
    (width height : ℤ) (iterations : ℤ) : SimState :=
  erodeGo p sqrtFn rand width height iterations.toNat 0
    ⟨map, fun _ => 0, fun _ => 0, fun _ => 0⟩

end Erosion

namespace Erosion

/-- Bilinear weight pattern added at flat index `z` by one four-corner
update of amount `a` at cell `(x, y)`. -/
def dAmt (width : ℤ) (x y : ℤ) (ox oy a : ℚ) (z : ℤ) : ℚ :=
  (if z = y * width + x then a * (1 - ox) * (1 - oy) else 0)
  + (if z = y * width + x + 1 then a * ox * (1 - oy) else 0)
  + (if z = y * width + x + width then a * (1 - ox) * oy else 0)
  + (if z = y * width + x + width + 1 then a * ox * oy else 0)

/-- Pointwise effect of `addToMap`. -/
theorem addToMap_delta (t : HMap) (w x y : ℤ) (ox oy a : ℚ) (z : ℤ) :
    addToMap t w x y ox oy a z = t z + dAmt w x y ox oy a z := by
  unfold addToMap bump dAmt
  split_ifs <;> ring

/-- Pointwise effect of `deposit` (same pattern as `addToMap`). -/
theorem deposit_delta (m : HMap) (w x y : ℤ) (ox oy a : ℚ) (z : ℤ) :
    deposit m w x y ox oy a z = m z + dAmt w x y ox oy a z := by
  unfold deposit bump dAmt
  split_ifs <;> ring

/-- The weight pattern is linear in the amount (negation case). -/
theorem dAmt_neg (w x y : ℤ) (ox oy a : ℚ) (z : ℤ) :
    dAmt w x y ox oy (-a) z = -dAmt w x y ox oy a z := by
  unfold dAmt
  split_ifs <;> ring

/-- Mass bookkeeping relative to the initial height map `m0`:
every cell of the current map equals its initial height minus the eroded
amount plus the deposited amount recorded for that cell. -/
def Bal (m0 : HMap) (s : SimState) : Prop :=
  ∀ z, s.map z = m0 z - s.erosionMap z + s.depositMap z

/-- One droplet step preserves the mass bookkeeping invariant: the deposit
branch adds the same bilinear pattern to the height map and to
`depositMap`, and the erode branch subtracts from the height map exactly
the pattern it adds to `erosionMap`. -/
theorem dropletStep_bal (p : Params) (sqrtFn : ℚ → ℚ) (w h : ℤ)
    (m0 : HMap) (s : SimState) (d : Droplet) (hb : Bal m0 s) :
    Bal m0 (dropletStep p sqrtFn w h s d).1 := by
  simp only [dropletStep]
  split_ifs <;> intro z <;>
    simp only [addToMap_delta, deposit_delta, dAmt_neg] <;>
    ( have hz := hb z; linarith)

/-- The droplet lifetime loop preserves the mass bookkeeping invariant. -/
theorem runDroplet_bal (p : Params) (sqrtFn : ℚ → ℚ) (w h : ℤ) (m0 : HMap) :
    ∀ (k : ℕ) (s : SimState) (d : Droplet), Bal m0 s →
      Bal m0 (runDroplet p sqrtFn w h k s d) := by
  intro k
  induction k with
  | zero => intro s d hb; exact hb
  | succ k ih =>
    intro s d hb
    rw [runDroplet]
    split
    · exact ih _ _ (dropletStep_bal p sqrtFn w h m0 s d hb)
    · exact dropletStep_bal p sqrtFn w h m0 s d hb

/-- The droplet spawning loop preserves the mass bookkeeping invariant. -/
theorem erodeGo_bal (p : Params) (sqrtFn : ℚ → ℚ) (rand : ℕ → ℚ) (w h : ℤ)
    (m0 : HMap) :
    ∀ (cnt i : ℕ) (s : SimState), Bal m0 s →
      Bal m0 (erodeGo p sqrtFn rand w h cnt i s) := by
  intro cnt
  induction cnt with
  | zero => intro i s hb; exact hb
  | succ cnt ih =>
    intro i s hb
    rw [erodeGo]
    exact ih _ _ (runDroplet_bal p sqrtFn w h m0 30 s _ hb)

end Erosion

/-- C4: after `erode(heightField, width, height, iterations)` returns its
`ErosionResult`, every cell satisfies
`finalHeight = initialHeight - erosionMap + depositMap` — exactly, in the
exact-arithmetic embedding, for every input map, dimensions, iteration
count, and every behaviour of the random stream and of `Math.sqrt`. -/
theorem claim_C4_erosion_mass_bookkeeping (p : Erosion.Params)
    (sqrtFn : ℚ → ℚ) (rand : ℕ → ℚ) (map : HMap) (width height : ℤ)
    (iterations : ℤ) (z : ℤ) :
    (Erosion.erode p sqrtFn rand map width height iterations).map z
      = map z
        - (Erosion.erode p sqrtFn rand map width height iterations).erosionMap z
        + (Erosion.erode p sqrtFn rand map width height iterations).depositMap z := by
  have h0 : Erosion.Bal map ⟨map, fun _ => 0, fun _ => 0, fun _ => 0⟩ := by
    intro z; simp
  exact Erosion.erodeGo_bal p sqrtFn rand width height map iterations.toNat 0 _ h0 z

/-- C6: a non-positive iteration count makes `erode` a no-op: the height
field is returned unchanged and the erosion, deposit and flow maps are
all zero. -/
theorem claim_C6_zero_iterations_noop (p : Erosion.Params)
    (sqrtFn : ℚ → ℚ) (rand : ℕ → ℚ) (map : HMap) (width height : ℤ)
    (iterations : ℤ) (hit : iterations ≤ 0) :
    Erosion.erode p sqrtFn rand map width height iterations
      = ⟨map, fun _ => 0, fun _ => 0, fun _ => 0⟩ := by
  unfold Erosion.erode
  rw [Int.toNat_of_nonpos hit]
  rfl

/-- Witness for C6 at a concrete input: `iterations = -5` on a constant
height field of value 3 over an 8×8 grid. -/
theorem claim_C6_zero_iterations_noop_witness :
    Erosion.erode Erosion.defaultParams (fun _ => 0) (fun _ => 0)
      (fun _ => 3) 8 8 (-5)
      = ⟨fun _ => 3, fun _ => 0, fun _ => 0, fun _ => 0⟩ :=
  claim_C6_zero_iterations_noop Erosion.defaultParams (fun _ => 0) (fun _ => 0)
    (fun _ => 3) 8 8 (-5) (by norm_num)

namespace Erosion

/-- Concrete 8×8 height field sloping down in x: `h(x, y) = -x/500`. -/
def cexMap : HMap := fun idx => -(1/500) * ((idx.emod 8 : ℤ) : ℚ)

/-- Concrete square-root oracle, exact on the one value the scenario
needs. -/
def cexSqrt : ℚ → ℚ := fun q => if q = (19/10000) * (19/10000) then 19/10000 else 0

/-- Freshly spawned droplet at position `(3/2, 3/2)`. -/
def cexDroplet : Droplet := ⟨3/2, 3/2, 0, 0, 1, 1, 0⟩

/-- Initial simulation state over `cexMap` with zeroed tracking maps. -/
def cexState : SimState := ⟨cexMap, fun _ => 0, fun _ => 0, fun _ => 0⟩

end Erosion

/-- C5 fails as stated on the ErosionResult-producing simulator: at the
droplet step starting from `cexDroplet` on `cexMap` (height delta
`-1/500`, speed 1, water 1, default parameters), the capacity actually
used is `max(-diff*speed*water*capacityFactor, minSlope) = 1/100`, while
the claimed formula `max(-diff, minSlope)*speed*water*capacityFactor`
gives `1/25`; consequently the step picks up sediment `1/1000` where the
claimed capacity would dictate `1/500`. -/
theorem claim_C5_capacity_counterexample :
    Erosion.sedimentCapacity Erosion.defaultParams (-(1/500)) 1 1 = 1/100
    ∧ Erosion.sedimentCapacitySpec Erosion.defaultParams (-(1/500)) 1 1 = 1/25
    ∧ Erosion.dropletDiff Erosion.defaultParams Erosion.cexSqrt
        Erosion.cexState.map 8 Erosion.cexDroplet = -(1/500)
    ∧ (Erosion.dropletStep Erosion.defaultParams Erosion.cexSqrt 8 8
        Erosion.cexState Erosion.cexDroplet).2.1.sediment = 1/1000
    ∧ 0 + min ((Erosion.sedimentCapacitySpec Erosion.defaultParams (-(1/500)) 1 1 - 0)
          * Erosion.defaultParams.erosionRate) (1/500) = 1/500
    ∧ (1/1000 : ℚ) ≠ 1/500 := by
  refine ⟨?_, ?_, ?_, ?_, ?_, by norm_num⟩
  · norm_num [Erosion.sedimentCapacity, Erosion.defaultParams, max_def]
  · norm_num [Erosion.sedimentCapacitySpec, Erosion.defaultParams, max_def]
  · norm_num [Erosion.dropletDiff, Erosion.dropletDir,
      Erosion.calculateHeightAndGradient, Erosion.cexState, Erosion.cexMap,
      Erosion.cexSqrt, Erosion.cexDroplet, Erosion.defaultParams]
  · norm_num [Erosion.dropletStep, Erosion.dropletDir, Erosion.dropletDiff,
      Erosion.calculateHeightAndGradient, Erosion.sedimentCapacity,
      Erosion.addToMap, Erosion.deposit, Erosion.bump, Erosion.cexMap,
      Erosion.cexSqrt, Erosion.cexState, Erosion.cexDroplet,
      Erosion.defaultParams, max_def, min_def]
  · norm_num [Erosion.sedimentCapacitySpec, Erosion.defaultParams, max_def]

/-- C5 amended: at every droplet step of the ErosionResult-producing
simulator that stays on the map, the sediment update is governed by the
capacity `max(-heightDelta * speed * water * capacityFactor, minSlope)` —
the speed/water/capacity factors multiply the slope term inside the `max`
(the claimed form `max(-heightDelta, minSlope) * speed * water *
capacityFactor` is used only by the optimized erosion variant of
src/utils/erosion.ts). -/
theorem claim_C5_amended_step_capacity (p : Erosion.Params)
    (sqrtFn : ℚ → ℚ) (w h : ℤ) (s : Erosion.SimState) (d : Erosion.Droplet)
    (hin : ¬(d.posX + (Erosion.dropletDir p sqrtFn s.map w d).1 < 0
        ∨ d.posX + (Erosion.dropletDir p sqrtFn s.map w d).1 ≥ (w : ℚ) - 1
        ∨ d.posY + (Erosion.dropletDir p sqrtFn s.map w d).2 < 0
        ∨ d.posY + (Erosion.dropletDir p sqrtFn s.map w d).2 ≥ (h : ℚ) - 1)) :
    (Erosion.dropletStep p sqrtFn w h s d).2.1.sediment
      = (if d.sediment > Erosion.sedimentCapacity p
              (Erosion.dropletDiff p sqrtFn s.map w d) d.speed d.water
            ∨ Erosion.dropletDiff p sqrtFn s.map w d > 0
         then d.sediment
              - (if Erosion.dropletDiff p sqrtFn s.map w d > 0
                 then min (Erosion.dropletDiff p sqrtFn s.map w d) d.sediment
                 else (d.sediment - Erosion.sedimentCapacity p
                     (Erosion.dropletDiff p sqrtFn s.map w d) d.speed d.water)
                   * p.deposition)
         else d.sediment
              + min ((Erosion.sedimentCapacity p
                    (Erosion.dropletDiff p sqrtFn s.map w d) d.speed d.water
                  - d.sediment) * p.erosionRate)
                (-(Erosion.dropletDiff p sqrtFn s.map w d))) := by
  simp only [Erosion.dropletStep]
  rw [if_neg hin]
  split_ifs <;> rfl

/-- Witness for the amended C5 at the concrete scenario: the in-bounds
hypothesis holds and the step's sediment equals the capacity formula's
prediction, both evaluating to `1/1000`. -/
theorem claim_C5_amended_step_capacity_witness :
    (Erosion.dropletStep Erosion.defaultParams Erosion.cexSqrt 8 8
        Erosion.cexState Erosion.cexDroplet).2.1.sediment = 1/1000 := by
  rw [claim_C5_amended_step_capacity Erosion.defaultParams Erosion.cexSqrt 8 8
    Erosion.cexState Erosion.cexDroplet ?hin]
  case hin =>
    norm_num [Erosion.dropletDir, Erosion.calculateHeightAndGradient,
      Erosion.cexState, Erosion.cexMap, Erosion.cexSqrt, Erosion.cexDroplet,
      Erosion.defaultParams]
  norm_num [Erosion.dropletDiff, Erosion.dropletDir,
    Erosion.calculateHeightAndGradient, Erosion.sedimentCapacity,
    Erosion.cexState, Erosion.cexMap, Erosion.cexSqrt, Erosion.cexDroplet,
    Erosion.defaultParams, max_def, min_def]

namespace MapTile

/-- Tile keys: the integer grid coordinates behind the `"x_z"` key
string of MapTile.ts. -/
abbrev Key := ℤ × ℤ

/-- The module-level caches of MapTile.ts together with an explicit heap
of `Float32Array` contents, so that in-place mutation and aliasing are
observable.  `resultCache` models the presence of an entry in
`erosionResultCache` (its three arrays are fresh allocations of the
erosion run and are not aliased with the height caches). -/
structure Store where
  heap : ℕ → HMap
  nextId : ℕ
  rawCache : Key → Option ℕ
  erodedCache : Key → Option ℕ
  blendedCache : Key → Option ℕ
  resultCache : Key → Option Unit

/-- Allocate a fresh array with the given contents (`new Float32Array`). -/
def alloc (st : Store) (content : HMap) : Store × ℕ :=
  ({ st with
      heap := fun i => if i = st.nextId then content else st.heap i,
      nextId := st.nextId + 1 },
   st.nextId)

/-- The per-instance fields of a `MapTile` that the height pipeline and
blending read or write.  `maskHeight`/`maskAvg` are the constructor's
`getHeightDelt` output (the interpolated base-mask patch and its
average), carried as data. -/
structure TileState where
  tileX : ℤ
  tileZ : ℤ
  heightMap : Option ℕ
  maskHeight : HMap
  maskAvg : ℚ
  isLoaded : Bool
  isGenerating : Bool
  needsBlending : Bool
  blendVersion : ℤ
  lastBlendVersion : ℤ
  neighbors : Fin 8 → Option Key

/-- Tile key (`get key()`). -/
def key (t : TileState) : Key := (t.tileX, t.tileZ)

/-- Tile configuration fields used by the modelled pipeline. -/
structure TileConfig where
  width : ℚ
  sizeScale : ℚ
  size : ℚ
  segments : ℕ
  noiseScale : ℚ
  heightScale : ℚ
  seed : ℤ
  erosionEnabled : Bool
  overlapSegments : ℕ

/-- Static context of the tile layer: the configuration, the static
blending tables (`MapTile.overLapWeight` and `MapTile.blendArr`, whose
initialization in `initOverLapIndexes` involves `Math.sqrt` and is
therefore carried as data), and the in-place effect of the configured
shared erosion run (`Erosion.erode` with `Math.random`), as an oracle. -/
structure Env where
  cfg : TileConfig
  overLapWeight : ℤ → ℚ
  blendArr : ℤ → List (Fin 8 × ℤ × ℚ)
  erodeF : HMap → HMap

/-- Virtual vertices per side: `segments + 2*overlapSegments + 1`. -/
def virtualVertexCount (cfg : TileConfig) : ℕ :=
  cfg.segments + 2 * cfg.overlapSegments + 1

/-- World size of one segment. -/
def segmentSize (cfg : TileConfig) : ℚ := cfg.size / (cfg.segments : ℚ)

/-- Overlap margin in world units. -/
def overlapWorldSize (cfg : TileConfig) : ℚ :=
  (cfg.overlapSegments : ℚ) * segmentSize cfg

/-- Raw height contents generated by `generateRawHeightMap` for a tile
(the loop body over the virtual grid, as a function of the flat index):
cells whose mask value is below 0.1 get the sentinel height `-1`, the
rest get `mask*8 + ((fractalNoise2D(x/noiseScale, z/noiseScale)+1)/2)
* heightScale * mask`. -/
def rawContent (cfg : TileConfig) (t : TileState) : HMap := fun idx =>
  if t.maskHeight idx < 1/10 then -1
  else
    let N : ℤ := (virtualVertexCount cfg : ℤ)
    let i : ℤ := idx / N
    let j : ℤ := idx.emod N
    let z : ℚ := (t.tileZ * cfg.size - overlapWorldSize cfg) + i * segmentSize cfg
    let x : ℚ := (t.tileX * cfg.size - overlapWorldSize cfg) + j * segmentSize cfg
    let height := ((PerlinNoise.fractalNoise2Dd (PerlinNoise.construct cfg.seed)
        (x / cfg.noiseScale) (z / cfg.noiseScale)) + 1) / 2 * cfg.heightScale
    t.maskHeight idx * 8 + height * t.maskHeight idx

/-- Raw heightmap generation (`generateRawHeightMap`): a zero-mask tile
returns a fresh zero array without caching; otherwise the cached array is
returned if present, else the generated array is cached and returned. -/
def generateRawHeightMap (env : Env) (st : Store) (t : TileState) : Store × ℕ :=
  if t.maskAvg = 0 then alloc st (fun _ => 0)
  else
    match st.rawCache (key t) with
    | some id => (st, id)
    | none =>
      let r := alloc st (rawContent env.cfg t)
      ({ r.1 with rawCache := fun k => if k = key t then some r.2 else st.rawCache k },
       r.2)

/-- Cache miss path of `applyErosion`: clone the raw array, erode the
clone in place (`erodeF` is the configured erosion run), and insert it
into the eroded cache together with its erosion result. -/
def erodeRun (env : Env) (st : Store) (t : TileState) (rawId : ℕ) :
    Store × ℕ :=
  let r := alloc st (env.erodeF (st.heap rawId))
  ({ r.1 with
      erodedCache := fun k => if k = key t then some r.2 else st.erodedCache k,
      resultCache := fun k => if k = key t then some () else st.resultCache k },
   r.2)

/-- Erosion pass (`applyErosion`): passthrough when erosion is disabled;
a hit in both the eroded cache and the erosion-result cache returns the
cached array; otherwise the raw array is cloned, eroded in place, and the
clone is inserted into both caches. -/
def applyErosion (env : Env) (st : Store) (t : TileState) (rawId : ℕ) :
    Store × ℕ :=
  if env.cfg.erosionEnabled = false then (st, rawId)
  else
    match st.erodedCache (key t), st.resultCache (key t) with
    | some e, some _ => (st, e)
    | _, _ => erodeRun env st t rawId

/-- Height pipeline (`generateHeightMap`): raw generation then erosion. -/
def generateHeightMap (env : Env) (st : Store) (t : TileState) : Store × ℕ :=
  let r := generateRawHeightMap env st t
  applyErosion env r.1 t r.2

/-- Original (pre-blend) heightmap lookup (`getOriginalHeightMap`):
the eroded cache first, then the raw cache. -/
def getOriginalHeightMap (st : Store) (k : Key) : Option ℕ :=
  match st.erodedCache k with
  | some id => some id
  | none => st.rawCache k

/-- Original heightmap of the neighbor in direction `i`, when that
neighbor link is set (`neighbor && neighbor.getOriginalHeightMap()`). -/
def neighborOriginal (st : Store) (t : TileState) (i : Fin 8) : Option ℕ :=
  match t.neighbors i with
  | none => none
  | some nk => getOriginalHeightMap st nk

/-- Staleness check (`get requiresBlending`). -/
def requiresBlending (t : TileState) : Bool :=
  t.needsBlending && t.isLoaded && !(t.blendVersion == t.lastBlendVersion)

/-- Neighbor-change notification (`markNeedsBlending`). -/
def markNeedsBlending (t : TileState) : TileState :=
  { t with blendVersion := t.blendVersion + 1, needsBlending := true }

/-- Neighbor link update (`setNeighbor`): bumps the blend version only
when the link actually changes. -/
def setNeighbor (t : TileState) (dir : Fin 8) (nk : Option Key) : TileState :=
  if t.neighbors dir ≠ nk then
    { t with
        neighbors := fun d => if d = dir then nk else t.neighbors d,
        blendVersion := t.blendVersion + 1,
        needsBlending := true }
  else t

/-- Contents of the blended array, as a function of the tile's original
contents and the eight neighbor originals (the per-vertex loop of
`blendWithNeighbors`): inside the array bounds, a vertex with nonzero
`myOriginal[i] * overLapWeight[i]` is replaced by the weighted average of
its own original height and the neighbor heights listed in
`MapTile.blendArr[i]`; all other cells keep the cloned original value. -/
def blendContent (env : Env) (myC : HMap) (neibC : Fin 8 → HMap) : HMap :=
  fun z =>
    if 0 ≤ z ∧ z < ((virtualVertexCount env.cfg : ℤ) * (virtualVertexCount env.cfg : ℤ)) then
      let up0 := myC z * env.overLapWeight z
      if up0 = 0 then myC z
      else
        let folded := (env.blendArr z).foldl
          (fun acc cur => (acc.1 + neibC cur.1 cur.2.1 * cur.2.2, acc.2 + cur.2.2))
          (up0, env.overLapWeight z)
        folded.1 / folded.2
    else myC z

/-- Result of a successful blend: a fresh array holding the blended
contents is allocated, recorded in the blended cache, and installed as
the tile's height field; the tile is marked blended at its current
version.  (`Option.getD 0` reads the neighbor ids; on the success path
every `neighborOriginal` is `some`, so the default is never used.) -/
def blendSuccess (env : Env) (st : Store) (t : TileState) (myOrig : ℕ) :
    Store × TileState × Bool :=
  let r := alloc st (blendContent env (st.heap myOrig)
    (fun i => st.heap ((neighborOriginal st t i).getD 0)))
  ({ r.1 with
      blendedCache := fun k => if k = key t then some r.2 else st.blendedCache k },
   { t with
      heightMap := some r.2,
      needsBlending := false,
      lastBlendVersion := t.blendVersion },
   true)

/-- Border blending (`blendWithNeighbors` of src/map/MapTile.ts): no-op
returning `false` unless the tile is loaded with a height field and a
stale blend version; `overlapSegments == 0` marks the tile blended and
returns `false`; a missing own original, no loaded neighbor
(`hasLoadedNeighbor`), or any of the eight neighbor slots being empty or
lacking original height data also return `false` without touching any
state.  Otherwise the blend succeeds (`blendSuccess`) and returns
`true`. -/
def blendWithNeighbors (env : Env) (st : Store) (t : TileState) :
    Store × TileState × Bool :=
  if t.heightMap = none ∨ t.isLoaded = false then (st, t, false)
  else if t.blendVersion = t.lastBlendVersion then (st, t, false)
  else if env.cfg.overlapSegments = 0 then
    (st, { t with needsBlending := false, lastBlendVersion := t.blendVersion }, false)
  else
    match getOriginalHeightMap st (key t) with
    | none => (st, t, false)
    | some myOrig =>
      if ∃ i : Fin 8, (neighborOriginal st t i).isSome then
        if ∀ i : Fin 8, (neighborOriginal st t i).isSome then
          blendSuccess env st t myOrig
        else (st, t, false)
      else (st, t, false)

/-- Load (`load`): no-op outside the mask's world bounds or when already
loaded/generating; otherwise runs the height pipeline and installs the
resulting array (mesh/geometry/scene handling does not touch the height
caches and is omitted). -/
def load (env : Env) (st : Store) (t : TileState) : Store × TileState :=
  let x := ((t.tileX : ℚ) + env.cfg.width / (2 * env.cfg.sizeScale)) * env.cfg.sizeScale
  let y := ((t.tileZ : ℚ) + env.cfg.width / (2 * env.cfg.sizeScale)) * env.cfg.sizeScale
  if x < 0 ∨ y < 0 ∨ x > env.cfg.width ∨ y > env.cfg.width then (st, t)
  else if t.isLoaded = true ∨ t.isGenerating = true then (st, t)
  else
    let r := generateHeightMap env st t
    (r.1, { t with heightMap := some r.2, isLoaded := true, isGenerating := false })

/-- Unload (`unload`): detaches renderables (omitted) and clears the
loaded flag; all caches and the tile's height data are retained. -/
def unload (t : TileState) : TileState :=
  if t.isLoaded = false then t else { t with isLoaded := false }

/-- Dispose (`dispose`): purges this tile's raw/eroded/blended cache
entries (the source omits the erosion-result cache), drops the height
field, resets the blend state and clears the neighbor links. -/
def dispose (st : Store) (t : TileState) : Store × TileState :=
  ({ st with
      rawCache := fun k => if k = key t then none else st.rawCache k,
      erodedCache := fun k => if k = key t then none else st.erodedCache k,
      blendedCache := fun k => if k = key t then none else st.blendedCache k },
   { t with
      heightMap := none,
      isLoaded := false,
      needsBlending := true,
      lastBlendVersion := -1,
      neighbors := fun _ => none })

end MapTile

namespace MapTile

/-- Concrete tile configuration for the blending counterexample
(small tile, erosion off, nonzero overlap). -/
def cexConfig : TileConfig :=
  ⟨1, 1, 32, 2, 8, 4, 12345, false, 1⟩

/-- Concrete environment: trivial static blend tables and identity
erosion effect. -/
def cexEnv : Env :=
  ⟨cexConfig, fun _ => 1, fun _ => [], fun h => h⟩

/-- Concrete store: raw heightmaps cached for tile (0,0) and its north
neighbor (0,-1) only. -/
def cexStore : Store where
  heap := fun _ => fun _ => 0
  nextId := 2
  rawCache := fun k => if k = ((0, 0) : Key) then some 0
    else if k = ((0, -1) : Key) then some 1 else none
  erodedCache := fun _ => none
  blendedCache := fun _ => none
  resultCache := fun _ => none

/-- Concrete tile (0,0): loaded, blend-stale, with only its north
neighbor linked. -/
def cexTile : TileState where
  tileX := 0
  tileZ := 0
  heightMap := some 0
  maskHeight := fun _ => 1
  maskAvg := 1
  isLoaded := true
  isGenerating := false
  needsBlending := true
  blendVersion := 1
  lastBlendVersion := 0
  neighbors := fun i => if i = (0 : Fin 8) then some ((0, -1) : Key) else none

end MapTile

/-- C1 fails as stated on src/map/MapTile.ts: tile (0,0) is loaded with
`overlapSegments = 1 > 0` and a stale blend version, and its north
neighbor's original heightmap is cached and available — yet
`blendWithNeighbors()` returns `false` and leaves the tile's heightfield
and the caches untouched, because the seven remaining neighbor links are
empty (the blending loop requires all eight neighbors). -/
theorem claim_C1_blend_counterexample :
    (MapTile.neighborOriginal MapTile.cexStore MapTile.cexTile 0).isSome = true
    ∧ MapTile.cexEnv.cfg.overlapSegments ≠ 0
    ∧ MapTile.cexTile.isLoaded = true
    ∧ MapTile.cexTile.blendVersion ≠ MapTile.cexTile.lastBlendVersion
    ∧ (MapTile.blendWithNeighbors MapTile.cexEnv MapTile.cexStore MapTile.cexTile).2.2
        = false
    ∧ (MapTile.blendWithNeighbors MapTile.cexEnv MapTile.cexStore MapTile.cexTile).2.1
        = MapTile.cexTile
    ∧ (MapTile.blendWithNeighbors MapTile.cexEnv MapTile.cexStore MapTile.cexTile).1
        = MapTile.cexStore := by
  have hb : MapTile.blendWithNeighbors MapTile.cexEnv MapTile.cexStore MapTile.cexTile
      = (MapTile.cexStore, MapTile.cexTile, false) := rfl
  refine ⟨by decide, by decide, by decide, by decide, ?_, ?_, ?_⟩ <;> rw [hb]

/-- C1 amended: for a loaded tile with a heightfield and a stale blend
version, when `overlapSegments ≠ 0` the call `blendWithNeighbors()`
returns `true` exactly when the tile's own original heightmap is cached
and ALL eight neighbor links are present with cached original heightmaps
(not merely one); every `false` return leaves the tile's heightfield and
the cache store unchanged.  (With `overlapSegments = 0` or no available
neighbor data the call returns `false`, as the spec says; the spec's
"whenever at least one neighbor is available it blends" direction is the
part the code refutes.) -/
theorem claim_C1_amended_blend_conditions (env : MapTile.Env)
    (st : MapTile.Store) (t : MapTile.TileState)
    (hl : t.isLoaded = true) (hhm : t.heightMap.isSome)
    (hst : t.blendVersion ≠ t.lastBlendVersion) :
    (env.cfg.overlapSegments ≠ 0 →
      ((MapTile.blendWithNeighbors env st t).2.2 = true ↔
        (MapTile.getOriginalHeightMap st (MapTile.key t)).isSome
          ∧ ∀ i : Fin 8, (MapTile.neighborOriginal st t i).isSome))
    ∧ ((MapTile.blendWithNeighbors env st t).2.2 = false →
        (MapTile.blendWithNeighbors env st t).2.1.heightMap = t.heightMap
        ∧ (MapTile.blendWithNeighbors env st t).1 = st) := by
  have hc1 : ¬(t.heightMap = none ∨ t.isLoaded = false) := by
    rcases Option.isSome_iff_exists.mp hhm with ⟨v, hv⟩
    simp [hv, hl]
  constructor
  · intro hov
    cases hg : MapTile.getOriginalHeightMap st (MapTile.key t) with
    | none =>
      have hval : MapTile.blendWithNeighbors env st t = (st, t, false) := by
        simp only [MapTile.blendWithNeighbors]
        rw [if_neg hc1, if_neg hst, if_neg hov]
        simp only [hg]
      rw [hval]
      simp [hg]
    | some myOrig =>
      by_cases hall : ∀ i : Fin 8, (MapTile.neighborOriginal st t i).isSome
      · have hex : ∃ i : Fin 8, (MapTile.neighborOriginal st t i).isSome :=
          ⟨0, hall 0⟩
        have hval : MapTile.blendWithNeighbors env st t
            = MapTile.blendSuccess env st t myOrig := by
          simp only [MapTile.blendWithNeighbors]
          rw [if_neg hc1, if_neg hst, if_neg hov]
          simp only [hg]
          rw [if_pos hex, if_pos hall]
        rw [hval]
        simp [hall, hg, MapTile.blendSuccess]
      · have hval : MapTile.blendWithNeighbors env st t = (st, t, false) := by
          simp only [MapTile.blendWithNeighbors]
          rw [if_neg hc1, if_neg hst, if_neg hov]
          simp only [hg]
          by_cases hex : ∃ i : Fin 8, (MapTile.neighborOriginal st t i).isSome
          · rw [if_pos hex, if_neg hall]
          · rw [if_neg hex]
        rw [hval]
        simp [hall]
  · intro hfalse
    by_cases hov : env.cfg.overlapSegments = 0
    · have hval : MapTile.blendWithNeighbors env st t
          = (st, { t with needsBlending := false,
                          lastBlendVersion := t.blendVersion }, false) := by
        simp only [MapTile.blendWithNeighbors]
        rw [if_neg hc1, if_neg hst, if_pos hov]
      rw [hval]
      exact ⟨rfl, rfl⟩
    · cases hg : MapTile.getOriginalHeightMap st (MapTile.key t) with
      | none =>
        have hval : MapTile.blendWithNeighbors env st t = (st, t, false) := by
          simp only [MapTile.blendWithNeighbors]
          rw [if_neg hc1, if_neg hst, if_neg hov]
          simp only [hg]
        rw [hval]
        exact ⟨rfl, rfl⟩
      | some myOrig =>
        by_cases hall : ∀ i : Fin 8, (MapTile.neighborOriginal st t i).isSome
        · have hex : ∃ i : Fin 8, (MapTile.neighborOriginal st t i).isSome :=
            ⟨0, hall 0⟩
          have hval : MapTile.blendWithNeighbors env st t
              = MapTile.blendSuccess env st t myOrig := by
            simp only [MapTile.blendWithNeighbors]
            rw [if_neg hc1, if_neg hst, if_neg hov]
            simp only [hg]
            rw [if_pos hex, if_pos hall]
          rw [hval] at hfalse
          simp [MapTile.blendSuccess] at hfalse
        · have hval : MapTile.blendWithNeighbors env st t = (st, t, false) := by
            simp only [MapTile.blendWithNeighbors]
            rw [if_neg hc1, if_neg hst, if_neg hov]
            simp only [hg]
            by_cases hex : ∃ i : Fin 8, (MapTile.neighborOriginal st t i).isSome
            · rw [if_pos hex, if_neg hall]
            · rw [if_neg hex]
          rw [hval]
          exact ⟨rfl, rfl⟩

namespace MapTile

/-- Concrete store with every tile's raw heightmap cached. -/
def cexStoreFull : Store where
  heap := fun _ => fun _ => 0
  nextId := 1
  rawCache := fun _ => some 0
  erodedCache := fun _ => none
  blendedCache := fun _ => none
  resultCache := fun _ => none

/-- Concrete tile like `cexTile` but with all eight neighbor links set. -/
def cexTileFull : TileState :=
  { cexTile with neighbors := fun _ => some ((0, -1) : Key) }

end MapTile

/-- Witness for the amended C1: with all eight neighbors present and
cached, the concrete blend call returns `true`. -/
theorem claim_C1_amended_blend_conditions_witness :
    (MapTile.blendWithNeighbors MapTile.cexEnv MapTile.cexStoreFull
      MapTile.cexTileFull).2.2 = true :=
  ((claim_C1_amended_blend_conditions MapTile.cexEnv MapTile.cexStoreFull
      MapTile.cexTileFull rfl (by decide) (by decide)).1
    (by decide)).mpr ⟨by decide, by decide⟩

namespace MapTile

/-- Store healthiness: every cached array id has been allocated. -/
def WfStore (st : Store) : Prop :=
  (∀ k id, st.rawCache k = some id → id < st.nextId)
  ∧ (∀ k id, st.erodedCache k = some id → id < st.nextId)
  ∧ (∀ k id, st.blendedCache k = some id → id < st.nextId)

/-- An original-heightmap id comes from the raw or eroded cache, hence is
allocated. -/
theorem getOriginal_lt {st : Store} {k : Key} {id : ℕ} (hwf : WfStore st)
    (hg : getOriginalHeightMap st k = some id) : id < st.nextId := by
  unfold getOriginalHeightMap at hg
  cases he : st.erodedCache k with
  | some e =>
    simp only [he] at hg
    exact Option.some.inj hg ▸ hwf.2.1 k e he
  | none =>
    simp only [he] at hg
    exact hwf.1 k id hg

/-- A neighbor-original id is allocated. -/
theorem neighborOriginal_lt {st : Store} {t : TileState} {i : Fin 8} {id : ℕ}
    (hwf : WfStore st) (hn : neighborOriginal st t i = some id) :
    id < st.nextId := by
  unfold neighborOriginal at hn
  cases hk : t.neighbors i with
  | none =>
    simp only [hk] at hn
    exact Option.noConfusion hn
  | some nk =>
    simp only [hk] at hn
    exact getOriginal_lt hwf hn

/-- Success-path introduction: under the guards, `blendWithNeighbors`
is exactly `blendSuccess`. -/
theorem blend_success_intro (env : Env) (st : Store) (t : TileState)
    (myOrig : ℕ)
    (hc1 : ¬(t.heightMap = none ∨ t.isLoaded = false))
    (hst : t.blendVersion ≠ t.lastBlendVersion)
    (hov : env.cfg.overlapSegments ≠ 0)
    (hg : getOriginalHeightMap st (key t) = some myOrig)
    (hall : ∀ i : Fin 8, (neighborOriginal st t i).isSome) :
    blendWithNeighbors env st t = blendSuccess env st t myOrig := by
  simp only [blendWithNeighbors]
  rw [if_neg hc1, if_neg hst, if_neg hov]
  simp only [hg]
  rw [if_pos ⟨0, hall 0⟩, if_pos hall]

/-- Inversion of a successful blend: the guards all held and the result
is `blendSuccess` for the cached original. -/
theorem blend_true_spec (env : Env) (st : Store) (t : TileState)
    (h : (blendWithNeighbors env st t).2.2 = true) :
    ∃ myOrig, getOriginalHeightMap st (key t) = some myOrig
      ∧ (∀ i : Fin 8, (neighborOriginal st t i).isSome)
      ∧ ¬(t.heightMap = none ∨ t.isLoaded = false)
      ∧ t.blendVersion ≠ t.lastBlendVersion
      ∧ env.cfg.overlapSegments ≠ 0
      ∧ blendWithNeighbors env st t = blendSuccess env st t myOrig := by
  by_cases hc1 : t.heightMap = none ∨ t.isLoaded = false
  · rw [show blendWithNeighbors env st t = (st, t, false) from by
      simp only [blendWithNeighbors]; rw [if_pos hc1]] at h
    simp at h
  by_cases hst : t.blendVersion = t.lastBlendVersion
  · rw [show blendWithNeighbors env st t = (st, t, false) from by
      simp only [blendWithNeighbors]; rw [if_neg hc1, if_pos hst]] at h
    simp at h
  by_cases hov : env.cfg.overlapSegments = 0
  · rw [show blendWithNeighbors env st t
        = (st, { t with needsBlending := false,
                        lastBlendVersion := t.blendVersion }, false) from by
      simp only [blendWithNeighbors]; rw [if_neg hc1, if_neg hst, if_pos hov]] at h
    simp at h
  cases hg : getOriginalHeightMap st (key t) with
  | none =>
    rw [show blendWithNeighbors env st t = (st, t, false) from by
      simp only [blendWithNeighbors]; rw [if_neg hc1, if_neg hst, if_neg hov]
      simp only [hg]] at h
    simp at h
  | some myOrig =>
    by_cases hall : ∀ i : Fin 8, (neighborOriginal st t i).isSome
    · exact ⟨myOrig, rfl, hall, hc1, hst, hov,
        blend_success_intro env st t myOrig hc1 hst hov hg hall⟩
    · by_cases hex : ∃ i : Fin 8, (neighborOriginal st t i).isSome
      · rw [show blendWithNeighbors env st t = (st, t, false) from by
          simp only [blendWithNeighbors]; rw [if_neg hc1, if_neg hst, if_neg hov]
          simp only [hg]; rw [if_pos hex, if_neg hall]] at h
        simp at h
      · rw [show blendWithNeighbors env st t = (st, t, false) from by
          simp only [blendWithNeighbors]; rw [if_neg hc1, if_neg hst, if_neg hov]
          simp only [hg]; rw [if_neg hex]] at h
        simp at h

end MapTile

namespace MapTile

/-- The array a successful blend installs holds exactly the blended
contents computed from the pre-blend store. -/
theorem blendSuccess_heap_at (env : Env) (st : Store) (t : TileState)
    (myOrig : ℕ) :
    (blendSuccess env st t myOrig).1.heap
      ((blendSuccess env st t myOrig).2.1.heightMap.getD 0)
    = blendContent env (st.heap myOrig)
        (fun i => st.heap ((neighborOriginal st t i).getD 0)) := by
  simp [blendSuccess, alloc]

end MapTile

/-- C2: re-blending against an unchanged neighbor set reproduces the
blended heightfield bit-for-bit.  If a blend succeeds and the tile is
then re-marked blend-pending (`markNeedsBlending`) without any change to
the raw/eroded caches or neighbor links, a second `blendWithNeighbors()`
also succeeds and the array it installs has exactly the same contents as
the first — because both blends read the immutable original caches, never
the previously blended result. -/
theorem claim_C2_blend_idempotent (env : MapTile.Env) (st : MapTile.Store)
    (t : MapTile.TileState) (hwf : MapTile.WfStore st)
    (h1 : (MapTile.blendWithNeighbors env st t).2.2 = true) :
    (MapTile.blendWithNeighbors env (MapTile.blendWithNeighbors env st t).1
        (MapTile.markNeedsBlending (MapTile.blendWithNeighbors env st t).2.1)).2.2
      = true
    ∧ (MapTile.blendWithNeighbors env (MapTile.blendWithNeighbors env st t).1
          (MapTile.markNeedsBlending (MapTile.blendWithNeighbors env st t).2.1)).1.heap
        ((MapTile.blendWithNeighbors env (MapTile.blendWithNeighbors env st t).1
          (MapTile.markNeedsBlending
            (MapTile.blendWithNeighbors env st t).2.1)).2.1.heightMap.getD 0)
      = (MapTile.blendWithNeighbors env st t).1.heap
          ((MapTile.blendWithNeighbors env st t).2.1.heightMap.getD 0) := by
  obtain ⟨myOrig, hg, hall, hc1, hst, hov, hval⟩ :=
    MapTile.blend_true_spec env st t h1
  rw [hval]
  have hl : t.isLoaded = true := by
    rcases Bool.eq_false_or_eq_true t.isLoaded with htrue | hfalse
    · exact htrue
    · exact absurd (Or.inr hfalse) hc1
  -- the state after the first blend, and the re-marked tile
  have hg1 : MapTile.getOriginalHeightMap (MapTile.blendSuccess env st t myOrig).1
      (MapTile.key (MapTile.markNeedsBlending (MapTile.blendSuccess env st t myOrig).2.1))
      = some myOrig := hg
  have hno : ∀ i : Fin 8,
      MapTile.neighborOriginal (MapTile.blendSuccess env st t myOrig).1
        (MapTile.markNeedsBlending (MapTile.blendSuccess env st t myOrig).2.1) i
      = MapTile.neighborOriginal st t i := fun _ => rfl
  have hall1 : ∀ i : Fin 8,
      (MapTile.neighborOriginal (MapTile.blendSuccess env st t myOrig).1
        (MapTile.markNeedsBlending (MapTile.blendSuccess env st t myOrig).2.1) i).isSome := by
    intro i; rw [hno i]; exact hall i
  have hc1' : ¬((MapTile.markNeedsBlending
        (MapTile.blendSuccess env st t myOrig).2.1).heightMap = none
      ∨ (MapTile.markNeedsBlending
        (MapTile.blendSuccess env st t myOrig).2.1).isLoaded = false) := by
    simp [MapTile.markNeedsBlending, MapTile.blendSuccess, MapTile.alloc, hl]
  have hst' : (MapTile.markNeedsBlending
        (MapTile.blendSuccess env st t myOrig).2.1).blendVersion
      ≠ (MapTile.markNeedsBlending
        (MapTile.blendSuccess env st t myOrig).2.1).lastBlendVersion := by
    simp [MapTile.markNeedsBlending, MapTile.blendSuccess, MapTile.alloc]
  have hval2 := MapTile.blend_success_intro env
    (MapTile.blendSuccess env st t myOrig).1
    (MapTile.markNeedsBlending (MapTile.blendSuccess env st t myOrig).2.1)
    myOrig hc1' hst' hov hg1 hall1
  rw [hval2]
  refine ⟨rfl, ?_⟩
  -- both sides reduce to the respective blended contents
  have hmyLt : myOrig < st.nextId := MapTile.getOriginal_lt hwf hg
  have hmy : (MapTile.blendSuccess env st t myOrig).1.heap myOrig
      = st.heap myOrig := by
    simp only [MapTile.blendSuccess, MapTile.alloc]
    rw [if_neg (Nat.ne_of_lt hmyLt)]
  have hnb : ∀ i : Fin 8,
      (MapTile.blendSuccess env st t myOrig).1.heap
        ((MapTile.neighborOriginal (MapTile.blendSuccess env st t myOrig).1
          (MapTile.markNeedsBlending (MapTile.blendSuccess env st t myOrig).2.1) i).getD 0)
      = st.heap ((MapTile.neighborOriginal st t i).getD 0) := by
    intro i
    rw [hno i]
    cases hni : MapTile.neighborOriginal st t i with
    | none => exact absurd (hni ▸ hall i) (by simp)
    | some nid =>
      have hlt : nid < st.nextId := MapTile.neighborOriginal_lt hwf hni
      simp only [Option.getD_some, MapTile.blendSuccess, MapTile.alloc]
      rw [if_neg (Nat.ne_of_lt hlt)]
  -- contents of the two blended arrays coincide
  have hcontent : MapTile.blendContent env
      ((MapTile.blendSuccess env st t myOrig).1.heap myOrig)
      (fun i => (MapTile.blendSuccess env st t myOrig).1.heap
        ((MapTile.neighborOriginal (MapTile.blendSuccess env st t myOrig).1
          (MapTile.markNeedsBlending (MapTile.blendSuccess env st t myOrig).2.1) i).getD 0))
      = MapTile.blendContent env (st.heap myOrig)
        (fun i => st.heap ((MapTile.neighborOriginal st t i).getD 0)) := by
    rw [hmy]
    have hfun : (fun i => (MapTile.blendSuccess env st t myOrig).1.heap
        ((MapTile.neighborOriginal (MapTile.blendSuccess env st t myOrig).1
          (MapTile.markNeedsBlending (MapTile.blendSuccess env st t myOrig).2.1) i).getD 0))
        = (fun i => st.heap ((MapTile.neighborOriginal st t i).getD 0)) :=
      funext hnb
    rw [hfun]
  rw [MapTile.blendSuccess_heap_at, MapTile.blendSuccess_heap_at]
  exact hcontent

/-- Witness for C2 at the concrete full-neighborhood scenario: the
healthy store blends successfully, and after re-marking, the second
blend also succeeds. -/
theorem claim_C2_blend_idempotent_witness :
    (MapTile.blendWithNeighbors MapTile.cexEnv
        (MapTile.blendWithNeighbors MapTile.cexEnv MapTile.cexStoreFull
          MapTile.cexTileFull).1
        (MapTile.markNeedsBlending
          (MapTile.blendWithNeighbors MapTile.cexEnv MapTile.cexStoreFull
            MapTile.cexTileFull).2.1)).2.2 = true := by
  have hwf : MapTile.WfStore MapTile.cexStoreFull := by
    refine ⟨fun k id h => ?_, fun k id h => ?_, fun k id h => ?_⟩
    · simp [MapTile.cexStoreFull] at h ⊢
      omega
    · simp [MapTile.cexStoreFull] at h
    · simp [MapTile.cexStoreFull] at h
  exact (claim_C2_blend_idempotent MapTile.cexEnv MapTile.cexStoreFull
    MapTile.cexTileFull hwf rfl).1

namespace MapTile

/-- The tile manager's world as far as caches are concerned: the shared
store plus the tile table. -/
structure World where
  store : Store
  tiles : Key → Option TileState

/-- The tile operations of the lifecycle (constructor, `load`, `unload`,
`blendWithNeighbors`, `dispose`, `markNeedsBlending`, `setNeighbor`). -/
inductive TileOp where
  | create (k : Key) (mask : HMap) (avg : ℚ)
  | loadOp (k : Key)
  | unloadOp (k : Key)
  | blendOp (k : Key)
  | disposeOp (k : Key)
  | markOp (k : Key)
  | linkOp (k : Key) (dir : Fin 8) (nk : Option Key)

/-- A freshly constructed tile (fields as initialized by the class plus
the constructor's `getHeightDelt` output). -/
def mkTile (k : Key) (mask : HMap) (avg : ℚ) : TileState :=
  ⟨k.1, k.2, none, mask, avg, false, false, true, 0, -1, fun _ => none⟩

/-- Replace the table entry for `k`. -/
def setTile (w : World) (k : Key) (t : TileState) : World :=
  { w with tiles := fun k' => if k' = k then some t else w.tiles k' }

/-- Execute one tile operation on the world (operations addressed at a
missing tile are no-ops). -/
def stepOp (env : Env) (w : World) : TileOp → World
  | .create k mask avg =>
    match w.tiles k with
    | some _ => w
    | none => setTile w k (mkTile k mask avg)
  | .loadOp k =>
    match w.tiles k with
    | none => w
    | some t =>
      let r := load env w.store t
      { store := r.1, tiles := (setTile w k r.2).tiles }
  | .unloadOp k =>
    match w.tiles k with
    | none => w
    | some t => setTile w k (unload t)
  | .blendOp k =>
    match w.tiles k with
    | none => w
    | some t =>
      let r := blendWithNeighbors env w.store t
      { store := r.1, tiles := (setTile w k r.2.1).tiles }
  | .disposeOp k =>
    match w.tiles k with
    | none => w
    | some t =>
      let r := dispose w.store t
      { store := r.1, tiles := (setTile w k r.2).tiles }
  | .markOp k =>
    match w.tiles k with
    | none => w
    | some t => setTile w k (markNeedsBlending t)
  | .linkOp k dir nk =>
    match w.tiles k with
    | none => w
    | some t => setTile w k (setNeighbor t dir nk)

/-- Store evolution that never rewrites an already-allocated array:
the heap below the old allocation frontier is untouched and the frontier
only grows. -/
def StoreStable (st st' : Store) : Prop :=
  (∀ id, id < st.nextId → st'.heap id = st.heap id) ∧ st.nextId ≤ st'.nextId

theorem storeStable_refl (st : Store) : StoreStable st st :=
  ⟨fun _ _ => rfl, le_refl _⟩

theorem storeStable_trans {s1 s2 s3 : Store} (h12 : StoreStable s1 s2)
    (h23 : StoreStable s2 s3) : StoreStable s1 s3 :=
  ⟨fun id hlt => (h23.1 id (lt_of_lt_of_le hlt h12.2)).trans (h12.1 id hlt),
   le_trans h12.2 h23.2⟩

/-- Allocation writes only the fresh id. -/
theorem alloc_storeStable (st : Store) (c : HMap) :
    StoreStable st (alloc st c).1 := by
  refine ⟨fun id hlt => ?_, Nat.le_succ _⟩
  simp only [alloc]
  rw [if_neg (Nat.ne_of_lt hlt)]

/-- Allocation preserves store healthiness. -/
theorem alloc_wf {st : Store} (hwf : WfStore st) (c : HMap) :
    WfStore (alloc st c).1 := by
  refine ⟨fun k id h => ?_, fun k id h => ?_, fun k id h => ?_⟩
  · exact Nat.lt_succ_of_lt (hwf.1 k id h)
  · exact Nat.lt_succ_of_lt (hwf.2.1 k id h)
  · exact Nat.lt_succ_of_lt (hwf.2.2 k id h)

/-- Raw generation: heap-stable and healthiness-preserving. -/
theorem generateRaw_stable (env : Env) (st : Store) (t : TileState)
    (hwf : WfStore st) :
    StoreStable st (generateRawHeightMap env st t).1
    ∧ WfStore (generateRawHeightMap env st t).1 := by
  unfold generateRawHeightMap
  split_ifs with h0
  · exact ⟨alloc_storeStable st _, alloc_wf hwf _⟩
  · cases hc : st.rawCache (key t) with
    | some id => exact ⟨storeStable_refl st, hwf⟩
    | none =>
      simp only [hc]
      constructor
      · exact ⟨(alloc_storeStable st (rawContent env.cfg t)).1,
          (alloc_storeStable st (rawContent env.cfg t)).2⟩
      · refine ⟨fun k id h => ?_, fun k id h => ?_, fun k id h => ?_⟩
        · dsimp only at h ⊢
          by_cases hk : k = key t
          · subst hk
            rw [if_pos rfl] at h
            have hid : id = st.nextId := by
              simpa [alloc] using (Option.some.inj h).symm
            simp [alloc]
            omega
          · rw [if_neg hk] at h
            exact Nat.lt_succ_of_lt (hwf.1 k id h)
        · dsimp only at h ⊢
          exact Nat.lt_succ_of_lt (hwf.2.1 k id h)
        · dsimp only at h ⊢
          exact Nat.lt_succ_of_lt (hwf.2.2 k id h)

end MapTile

namespace MapTile

/-- The erosion cache-miss path is heap-stable and healthy. -/
theorem erodeRun_stable (env : Env) (st : Store) (t : TileState) (rawId : ℕ)
    (hwf : WfStore st) :
    StoreStable st (erodeRun env st t rawId).1
    ∧ WfStore (erodeRun env st t rawId).1 := by
  constructor
  · exact ⟨(alloc_storeStable st (env.erodeF (st.heap rawId))).1,
      (alloc_storeStable st (env.erodeF (st.heap rawId))).2⟩
  · refine ⟨fun k id h => ?_, fun k id h => ?_, fun k id h => ?_⟩
    · dsimp only [erodeRun] at h ⊢
      exact Nat.lt_succ_of_lt (hwf.1 k id h)
    · dsimp only [erodeRun] at h ⊢
      by_cases hk : k = key t
      · subst hk
        rw [if_pos rfl] at h
        have hid : id = st.nextId := by
          simpa [alloc] using (Option.some.inj h).symm
        simp [alloc]
        omega
      · rw [if_neg hk] at h
        exact Nat.lt_succ_of_lt (hwf.2.1 k id h)
    · dsimp only [erodeRun] at h ⊢
      exact Nat.lt_succ_of_lt (hwf.2.2 k id h)

/-- The erosion pass is heap-stable and healthy. -/
theorem applyErosion_stable (env : Env) (st : Store) (t : TileState)
    (rawId : ℕ) (hwf : WfStore st) :
    StoreStable st (applyErosion env st t rawId).1
    ∧ WfStore (applyErosion env st t rawId).1 := by
  unfold applyErosion
  split_ifs with hdis
  · exact ⟨storeStable_refl st, hwf⟩
  · cases he : st.erodedCache (key t) with
    | some e =>
      cases hr : st.resultCache (key t) with
      | some u =>
        simp only [he, hr]
        exact ⟨storeStable_refl st, hwf⟩
      | none =>
        simp only [he, hr]
        exact erodeRun_stable env st t rawId hwf
    | none =>
      cases hr : st.resultCache (key t) with
      | some u =>
        simp only [he, hr]
        exact erodeRun_stable env st t rawId hwf
      | none =>
        simp only [he, hr]
        exact erodeRun_stable env st t rawId hwf

/-- The full height pipeline is heap-stable and healthy. -/
theorem generateHeightMap_stable (env : Env) (st : Store) (t : TileState)
    (hwf : WfStore st) :
    StoreStable st (generateHeightMap env st t).1
    ∧ WfStore (generateHeightMap env st t).1 := by
  unfold generateHeightMap
  have h1 := generateRaw_stable env st t hwf
  have h2 := applyErosion_stable env (generateRawHeightMap env st t).1 t
    (generateRawHeightMap env st t).2 h1.2
  exact ⟨storeStable_trans h1.1 h2.1, h2.2⟩

/-- Loading is heap-stable and healthy. -/
theorem load_stable (env : Env) (st : Store) (t : TileState)
    (hwf : WfStore st) :
    StoreStable st (load env st t).1 ∧ WfStore (load env st t).1 := by
  simp only [load]
  split_ifs with hb hl
  · exact ⟨storeStable_refl st, hwf⟩
  · exact ⟨storeStable_refl st, hwf⟩
  · exact generateHeightMap_stable env st t hwf

/-- A successful blend is heap-stable and healthy. -/
theorem blendSuccess_stable (env : Env) (st : Store) (t : TileState)
    (myOrig : ℕ) (hwf : WfStore st) :
    StoreStable st (blendSuccess env st t myOrig).1
    ∧ WfStore (blendSuccess env st t myOrig).1 := by
  constructor
  · refine ⟨fun id hlt => ?_, ?_⟩
    · dsimp only [blendSuccess]
      exact (alloc_storeStable st _).1 id hlt
    · dsimp only [blendSuccess]
      exact (alloc_storeStable st _).2
  · refine ⟨fun k id h => ?_, fun k id h => ?_, fun k id h => ?_⟩
    · dsimp only [blendSuccess] at h ⊢
      exact Nat.lt_succ_of_lt (hwf.1 k id h)
    · dsimp only [blendSuccess] at h ⊢
      exact Nat.lt_succ_of_lt (hwf.2.1 k id h)
    · dsimp only [blendSuccess] at h ⊢
      by_cases hk : k = key t
      · subst hk
        rw [if_pos rfl] at h
        have hid : id = st.nextId := by
          simpa [alloc] using (Option.some.inj h).symm
        simp [alloc]
        omega
      · rw [if_neg hk] at h
        exact Nat.lt_succ_of_lt (hwf.2.2 k id h)

/-- Blending is heap-stable and healthy, whichever path it takes. -/
theorem blend_stable (env : Env) (st : Store) (t : TileState)
    (hwf : WfStore st) :
    StoreStable st (blendWithNeighbors env st t).1
    ∧ WfStore (blendWithNeighbors env st t).1 := by
  unfold blendWithNeighbors
  split_ifs with h1 h2 h3 hex hall
  · exact ⟨storeStable_refl st, hwf⟩
  · exact ⟨storeStable_refl st, hwf⟩
  · exact ⟨storeStable_refl st, hwf⟩
  · cases hg : getOriginalHeightMap st (key t) with
    | none => simp only [hg]; exact ⟨storeStable_refl st, hwf⟩
    | some myOrig => simp only [hg]; exact blendSuccess_stable env st t myOrig hwf
  · cases hg : getOriginalHeightMap st (key t) with
    | none => simp only [hg]; exact ⟨storeStable_refl st, hwf⟩
    | some myOrig => simp only [hg]; exact ⟨storeStable_refl st, hwf⟩
  · cases hg : getOriginalHeightMap st (key t) with
    | none => simp only [hg]; exact ⟨storeStable_refl st, hwf⟩
    | some myOrig => simp only [hg]; exact ⟨storeStable_refl st, hwf⟩

/-- Dispose is heap-stable and healthy (it only deletes cache entries). -/
theorem dispose_stable (st : Store) (t : TileState)
    (hwf : WfStore st) :
    StoreStable st (dispose st t).1 ∧ WfStore (dispose st t).1 := by
  constructor
  · exact ⟨fun _ _ => rfl, le_refl _⟩
  · refine ⟨fun k id h => ?_, fun k id h => ?_, fun k id h => ?_⟩
    · dsimp only [dispose] at h ⊢
      by_cases hk : k = key t
      · rw [if_pos hk] at h
        exact Option.noConfusion h
      · rw [if_neg hk] at h
        exact hwf.1 k id h
    · dsimp only [dispose] at h ⊢
      by_cases hk : k = key t
      · rw [if_pos hk] at h
        exact Option.noConfusion h
      · rw [if_neg hk] at h
        exact hwf.2.1 k id h
    · dsimp only [dispose] at h ⊢
      by_cases hk : k = key t
      · rw [if_pos hk] at h
        exact Option.noConfusion h
      · rw [if_neg hk] at h
        exact hwf.2.2 k id h

/-- World healthiness. -/
def WfWorld (w : World) : Prop := WfStore w.store

/-- Every tile operation leaves the already-allocated heap untouched and
preserves healthiness: all array writes go to freshly allocated ids. -/
theorem stepOp_stable (env : Env) (w : World) (op : TileOp)
    (hwf : WfWorld w) :
    StoreStable w.store (stepOp env w op).store ∧ WfWorld (stepOp env w op) := by
  cases op with
  | create k mask avg =>
    cases htk : w.tiles k with
    | some t => simp only [stepOp, htk]; exact ⟨storeStable_refl _, hwf⟩
    | none => simp only [stepOp, htk]; exact ⟨storeStable_refl _, hwf⟩
  | loadOp k =>
    cases htk : w.tiles k with
    | none => simp only [stepOp, htk]; exact ⟨storeStable_refl _, hwf⟩
    | some t =>
      simp only [stepOp, htk]
      exact load_stable env w.store t hwf
  | unloadOp k =>
    cases htk : w.tiles k with
    | none => simp only [stepOp, htk]; exact ⟨storeStable_refl _, hwf⟩
    | some t => simp only [stepOp, htk]; exact ⟨storeStable_refl _, hwf⟩
  | blendOp k =>
    cases htk : w.tiles k with
    | none => simp only [stepOp, htk]; exact ⟨storeStable_refl _, hwf⟩
    | some t =>
      simp only [stepOp, htk]
      exact blend_stable env w.store t hwf
  | disposeOp k =>
    cases htk : w.tiles k with
    | none => simp only [stepOp, htk]; exact ⟨storeStable_refl _, hwf⟩
    | some t =>
      simp only [stepOp, htk]
      exact dispose_stable w.store t hwf
  | markOp k =>
    cases htk : w.tiles k with
    | none => simp only [stepOp, htk]; exact ⟨storeStable_refl _, hwf⟩
    | some t => simp only [stepOp, htk]; exact ⟨storeStable_refl _, hwf⟩
  | linkOp k dir nk =>
    cases htk : w.tiles k with
    | none => simp only [stepOp, htk]; exact ⟨storeStable_refl _, hwf⟩
    | some t => simp only [stepOp, htk]; exact ⟨storeStable_refl _, hwf⟩

/-- Heap stability over a whole operation sequence. -/
theorem runOps_stable (env : Env) :
    ∀ (ops : List TileOp) (w : World), WfWorld w →
      StoreStable w.store ((ops.foldl (stepOp env) w).store)
      ∧ WfWorld (ops.foldl (stepOp env) w) := by
  intro ops
  induction ops with
  | nil => intro w hwf; exact ⟨storeStable_refl _, hwf⟩
  | cons op rest ih =>
    intro w hwf
    have h1 := stepOp_stable env w op hwf
    have h2 := ih (stepOp env w op) h1.2
    exact ⟨storeStable_trans h1.1 h2.1, h2.2⟩

end MapTile

/-- C3: for every tile key and every sequence of tile operations
(create, load — which generates and erodes —, unload, blend, dispose,
mark-for-blending, neighbor linking), an array held by the raw heightmap
cache or by the eroded heightmap cache is never written again: after any
further operation sequence its contents are unchanged.  All mutation goes
into freshly allocated arrays — in particular blending writes only into a
fresh clone of the original. -/
theorem claim_C3_cache_arrays_immutable (env : MapTile.Env)
    (w : MapTile.World) (ops : List MapTile.TileOp)
    (hwf : MapTile.WfWorld w) (k : MapTile.Key) (id : ℕ) :
    (w.store.rawCache k = some id →
      (ops.foldl (MapTile.stepOp env) w).store.heap id = w.store.heap id)
    ∧ (w.store.erodedCache k = some id →
      (ops.foldl (MapTile.stepOp env) w).store.heap id = w.store.heap id) := by
  have hstable := MapTile.runOps_stable env ops w hwf
  constructor
  · intro hraw
    exact hstable.1.1 id (hwf.1 k id hraw)
  · intro her
    exact hstable.1.1 id (hwf.2.1 k id her)

namespace MapTile

/-- Concrete world for the C3 witness: tile (0,0) present, raw arrays
cached for (0,0) and (0,-1). -/
def cexWorld : World where
  store := cexStore
  tiles := fun k => if k = ((0, 0) : Key) then some cexTile else none

/-- Concrete operation sequence: blend, unload, re-load, mark, dispose,
re-create and re-load tile (0,0). -/
def cexOps : List TileOp :=
  [TileOp.blendOp (0, 0), TileOp.unloadOp (0, 0), TileOp.loadOp (0, 0),
   TileOp.markOp (0, 0), TileOp.linkOp (0, 0) 2 (some (1, 0)),
   TileOp.disposeOp (0, 0), TileOp.create (0, 0) (fun _ => 1) 1,
   TileOp.loadOp (0, 0)]

end MapTile

/-- Witness for C3: in the concrete world, the raw array cached for tile
(0,0) keeps its contents across the whole concrete operation sequence. -/
theorem claim_C3_cache_arrays_immutable_witness :
    (MapTile.cexOps.foldl (MapTile.stepOp MapTile.cexEnv)
      MapTile.cexWorld).store.heap 0
      = MapTile.cexWorld.store.heap 0 := by
  have hwf : MapTile.WfWorld MapTile.cexWorld := by
    refine ⟨fun k id h => ?_, fun k id h => ?_, fun k id h => ?_⟩
    · simp only [MapTile.cexWorld, MapTile.cexStore] at h ⊢
      split_ifs at h with h1 h2 <;> (try simp_all) <;> (try omega)
    · simp [MapTile.cexWorld, MapTile.cexStore] at h
    · simp [MapTile.cexWorld, MapTile.cexStore] at h
  exact (claim_C3_cache_arrays_immutable MapTile.cexEnv MapTile.cexWorld
    MapTile.cexOps hwf (0, 0) 0).1 rfl

namespace TileManager

/-- Manager state as far as the blending queue is concerned: the shared
cache store, the tile table, and the `pendingBlends` set (modelled as the
list of its members; `Set.delete` removes every occurrence). -/
structure MState where
  store : MapTile.Store
  tiles : MapTile.Key → Option MapTile.TileState
  pendingBlends : List MapTile.Key

/-- Remove a key from the pending-blend set (`this.pendingBlends.delete`). -/
def deletePending (k : MapTile.Key) (w : MState) : MState :=
  { w with pendingBlends := w.pendingBlends.filter (fun q => decide (q ≠ k)) }

/-- The loop body of `processBlendingQueue` over the snapshot
(`Array.from(this.pendingBlends)`): stops when the budget is reached;
otherwise a missing or unloaded tile, a tile that no longer requires
blending, and a tile whose `blendWithNeighbors()` ran (successfully or
not) are all removed from the queue; only a successful blend counts
against the budget.  Returns the final state and the list of keys
examined in this call. -/
def processAux (env : MapTile.Env) (maxBlends : ℕ) :
    List MapTile.Key → ℕ → MState → MState × List MapTile.Key
  | [], _, w => (w, [])
  | k :: rest, blendCount, w =>
    if maxBlends ≤ blendCount then (w, [])
    else
      match w.tiles k with
      | none =>
        let r := processAux env maxBlends rest blendCount (deletePending k w)
        (r.1, k :: r.2)
      | some t =>
        if t.isLoaded = false then
          let r := processAux env maxBlends rest blendCount (deletePending k w)
          (r.1, k :: r.2)
        else if MapTile.requiresBlending t = false then
          let r := processAux env maxBlends rest blendCount (deletePending k w)
          (r.1, k :: r.2)
        else
          let b := MapTile.blendWithNeighbors env w.store t
          let w' : MState :=
            { store := b.1,
              tiles := fun q => if q = k then some b.2.1 else w.tiles q,
              pendingBlends := w.pendingBlends }
          let cnt' := if b.2.2 then blendCount + 1 else blendCount
          let r := processAux env maxBlends rest cnt' (deletePending k w')
          (r.1, k :: r.2)

/-- The blending queue drain (`processBlendingQueue`). -/
def processBlendingQueue (env : MapTile.Env) (w : MState) (maxBlends : ℕ) :
    MState × List MapTile.Key :=
  processAux env maxBlends w.pendingBlends 0 w

/-- Combined queue-drain property for a snapshot list: processing never
enqueues, and every examined key ends up outside the pending set. -/
def AuxSpec (env : MapTile.Env) (maxBlends : ℕ) (l : List MapTile.Key) : Prop :=
  ∀ (cnt : ℕ) (w : MState),
    (∀ k, k ∈ (processAux env maxBlends l cnt w).1.pendingBlends →
      k ∈ w.pendingBlends)
    ∧ (∀ k, k ∈ (processAux env maxBlends l cnt w).2 →
      k ∉ (processAux env maxBlends l cnt w).1.pendingBlends)

/-- One examined key: recursion from the deleted state keeps the key out
and stays within the original pending set. -/
theorem auxStep (env : MapTile.Env) (maxBlends : ℕ) (rest : List MapTile.Key)
    (ih : AuxSpec env maxBlends rest) (cnt2 : ℕ) (w2 : MState)
    (k0 : MapTile.Key) :
    (∀ k, k ∈ (processAux env maxBlends rest cnt2 (deletePending k0 w2)).1.pendingBlends
        → k ∈ w2.pendingBlends)
    ∧ (∀ k, k ∈ k0 :: (processAux env maxBlends rest cnt2 (deletePending k0 w2)).2
        → k ∉ (processAux env maxBlends rest cnt2 (deletePending k0 w2)).1.pendingBlends) := by
  constructor
  · intro k hk
    have h1 := (ih cnt2 (deletePending k0 w2)).1 k hk
    simp only [deletePending] at h1
    exact List.mem_of_mem_filter h1
  · intro k hk
    rcases List.mem_cons.mp hk with hk0 | hrest
    · subst hk0
      intro hmem
      have h1 := (ih cnt2 (deletePending k w2)).1 k hmem
      simp [deletePending, List.mem_filter] at h1
    · exact (ih cnt2 (deletePending k0 w2)).2 k hrest

/-- The queue-drain property holds for every snapshot list. -/
theorem processAux_spec (env : MapTile.Env) (maxBlends : ℕ) :
    ∀ l : List MapTile.Key, AuxSpec env maxBlends l := by
  intro l
  induction l with
  | nil =>
    intro cnt w
    exact ⟨fun k hk => hk, fun k hk => absurd hk (List.not_mem_nil k)⟩
  | cons k0 rest ih =>
    intro cnt w
    by_cases hbudget : maxBlends ≤ cnt
    · have hstep : processAux env maxBlends (k0 :: rest) cnt w = (w, []) := by
        rw [processAux, if_pos hbudget]
      rw [hstep]
      exact ⟨fun k hk => hk, fun k hk => absurd hk (List.not_mem_nil k)⟩
    · cases htk : w.tiles k0 with
      | none =>
        have hstep : processAux env maxBlends (k0 :: rest) cnt w
            = ((processAux env maxBlends rest cnt (deletePending k0 w)).1,
               k0 :: (processAux env maxBlends rest cnt (deletePending k0 w)).2) := by
          rw [processAux, if_neg hbudget]
          simp only [htk]
        rw [hstep]
        exact auxStep env maxBlends rest ih cnt w k0
      | some t =>
        by_cases hl : t.isLoaded = false
        · have hstep : processAux env maxBlends (k0 :: rest) cnt w
              = ((processAux env maxBlends rest cnt (deletePending k0 w)).1,
                 k0 :: (processAux env maxBlends rest cnt (deletePending k0 w)).2) := by
            rw [processAux, if_neg hbudget]
            simp only [htk]
            rw [if_pos hl]
          rw [hstep]
          exact auxStep env maxBlends rest ih cnt w k0
        · by_cases hr : MapTile.requiresBlending t = false
          · have hstep : processAux env maxBlends (k0 :: rest) cnt w
                = ((processAux env maxBlends rest cnt (deletePending k0 w)).1,
                   k0 :: (processAux env maxBlends rest cnt (deletePending k0 w)).2) := by
              rw [processAux, if_neg hbudget]
              simp only [htk]
              rw [if_neg hl, if_pos hr]
            rw [hstep]
            exact auxStep env maxBlends rest ih cnt w k0
          · have hstep : processAux env maxBlends (k0 :: rest) cnt w
                = ((processAux env maxBlends rest
                      (if (MapTile.blendWithNeighbors env w.store t).2.2 then cnt + 1 else cnt)
                      (deletePending k0
                        { store := (MapTile.blendWithNeighbors env w.store t).1,
                          tiles := fun q => if q = k0
                            then some (MapTile.blendWithNeighbors env w.store t).2.1
                            else w.tiles q,
                          pendingBlends := w.pendingBlends })).1,
                   k0 :: (processAux env maxBlends rest
                      (if (MapTile.blendWithNeighbors env w.store t).2.2 then cnt + 1 else cnt)
                      (deletePending k0
                        { store := (MapTile.blendWithNeighbors env w.store t).1,
                          tiles := fun q => if q = k0
                            then some (MapTile.blendWithNeighbors env w.store t).2.1
                            else w.tiles q,
                          pendingBlends := w.pendingBlends })).2) := by
              rw [processAux, if_neg hbudget]
              simp only [htk]
              rw [if_neg hl, if_neg hr]
            rw [hstep]
            exact auxStep env maxBlends rest ih _ _ k0

end TileManager

namespace TileManager

/-- With a nonzero overlap, a failed blend leaves the tile (and the
store) exactly as they were — in particular the tile still requires
blending, yet `processBlendingQueue` has dropped it from the queue. -/
theorem blend_false_preserves (env : MapTile.Env) (st : MapTile.Store)
    (t : MapTile.TileState) (hov : env.cfg.overlapSegments ≠ 0)
    (hfalse : (MapTile.blendWithNeighbors env st t).2.2 = false) :
    (MapTile.blendWithNeighbors env st t).2.1 = t
    ∧ (MapTile.blendWithNeighbors env st t).1 = st := by
  by_cases hc1 : t.heightMap = none ∨ t.isLoaded = false
  · rw [show MapTile.blendWithNeighbors env st t = (st, t, false) from by
      simp only [MapTile.blendWithNeighbors]; rw [if_pos hc1]]
    exact ⟨rfl, rfl⟩
  by_cases hst : t.blendVersion = t.lastBlendVersion
  · rw [show MapTile.blendWithNeighbors env st t = (st, t, false) from by
      simp only [MapTile.blendWithNeighbors]; rw [if_neg hc1, if_pos hst]]
    exact ⟨rfl, rfl⟩
  cases hg : MapTile.getOriginalHeightMap st (MapTile.key t) with
  | none =>
    rw [show MapTile.blendWithNeighbors env st t = (st, t, false) from by
      simp only [MapTile.blendWithNeighbors]
      rw [if_neg hc1, if_neg hst, if_neg hov]
      simp only [hg]]
    exact ⟨rfl, rfl⟩
  | some myOrig =>
    by_cases hall : ∀ i : Fin 8, (MapTile.neighborOriginal st t i).isSome
    · have hval := MapTile.blend_success_intro env st t myOrig hc1 hst hov hg hall
      rw [hval] at hfalse
      simp [MapTile.blendSuccess] at hfalse
    · by_cases hex : ∃ i : Fin 8, (MapTile.neighborOriginal st t i).isSome
      · rw [show MapTile.blendWithNeighbors env st t = (st, t, false) from by
          simp only [MapTile.blendWithNeighbors]
          rw [if_neg hc1, if_neg hst, if_neg hov]
          simp only [hg]
          rw [if_pos hex, if_neg hall]]
        exact ⟨rfl, rfl⟩
      · rw [show MapTile.blendWithNeighbors env st t = (st, t, false) from by
          simp only [MapTile.blendWithNeighbors]
          rw [if_neg hc1, if_neg hst, if_neg hov]
          simp only [hg]
          rw [if_neg hex]]
        exact ⟨rfl, rfl⟩

end TileManager

/-- C10: in a `processBlendingQueue` pass (the blending part of
`TileManager.update`), every examined pending-blend key is removed from
the queue even when its `blendWithNeighbors()` returned `false`, and the
pass never enqueues anything; moreover (for nonzero overlap) a failed
blend leaves the tile unchanged and still blend-stale, so such a tile is
not re-examined until some neighbor change re-queues it — under
`update()` alone it can stay unblended indefinitely. -/
theorem claim_C10_blend_queue_discards_failures (env : MapTile.Env)
    (w : TileManager.MState) (maxBlends : ℕ) :
    (∀ k, k ∈ (TileManager.processBlendingQueue env w maxBlends).2 →
      k ∉ (TileManager.processBlendingQueue env w maxBlends).1.pendingBlends)
    ∧ (∀ k, k ∈ (TileManager.processBlendingQueue env w maxBlends).1.pendingBlends →
      k ∈ w.pendingBlends)
    ∧ (∀ (st : MapTile.Store) (t : MapTile.TileState),
        env.cfg.overlapSegments ≠ 0 →
        (MapTile.blendWithNeighbors env st t).2.2 = false →
        (MapTile.blendWithNeighbors env st t).2.1 = t
          ∧ (MapTile.blendWithNeighbors env st t).1 = st) := by
  refine ⟨?_, ?_, ?_⟩
  · intro k hk
    exact (TileManager.processAux_spec env maxBlends w.pendingBlends 0 w).2 k hk
  · intro k hk
    exact (TileManager.processAux_spec env maxBlends w.pendingBlends 0 w).1 k hk
  · intro st t hov hfalse
    exact TileManager.blend_false_preserves env st t hov hfalse

namespace TileManager

/-- Concrete store for the C10 witness: completely empty caches. -/
def cexQStore : MapTile.Store where
  heap := fun _ => fun _ => 0
  nextId := 0
  rawCache := fun _ => none
  erodedCache := fun _ => none
  blendedCache := fun _ => none
  resultCache := fun _ => none

/-- Concrete tile whose own original heightmap is not cached, so its
blend fails. -/
def cexQTile : MapTile.TileState where
  tileX := 0
  tileZ := 0
  heightMap := some 0
  maskHeight := fun _ => 1
  maskAvg := 1
  isLoaded := true
  isGenerating := false
  needsBlending := true
  blendVersion := 1
  lastBlendVersion := 0
  neighbors := fun _ => none

/-- Concrete manager state with tile (0,0) pending. -/
def cexQWorld : MState where
  store := cexQStore
  tiles := fun k => if k = ((0, 0) : MapTile.Key) then some cexQTile else none
  pendingBlends := [(0, 0)]

end TileManager

/-- Witness for C10: in the concrete state, tile (0,0) is examined, its
blend returns `false` (its original heights are not cached), and the key
is nevertheless removed from the queue. -/
theorem claim_C10_blend_queue_discards_failures_witness :
    ((0, 0) : MapTile.Key) ∉ (TileManager.processBlendingQueue
      MapTile.cexEnv TileManager.cexQWorld 2).1.pendingBlends :=
  (claim_C10_blend_queue_discards_failures MapTile.cexEnv
    TileManager.cexQWorld 2).1 (0, 0) (by decide)

namespace MapTileV2

/-- Tile configuration of the earlier MapTile variant (the file that
defines `getHeightAt`). -/
structure TileConfig where
  size : ℚ
  segments : ℕ
  noiseScale : ℚ
  heightScale : ℚ
  seed : ℤ
  erosionEnabled : Bool
  overlapSegments : ℕ

/-- Virtual segments per side: `segments + 2*overlapSegments`. -/
def virtualSegments (cfg : TileConfig) : ℕ :=
  cfg.segments + 2 * cfg.overlapSegments

/-- Virtual vertices per side. -/
def virtualVertexCount (cfg : TileConfig) : ℕ := virtualSegments cfg + 1

/-- World size of one segment. -/
def segmentSize (cfg : TileConfig) : ℚ := cfg.size / (cfg.segments : ℚ)

/-- Overlap margin in world units. -/
def overlapWorldSize (cfg : TileConfig) : ℚ :=
  (cfg.overlapSegments : ℚ) * segmentSize cfg

/-- Visible tile start (`get worldX` / `worldZ`). -/
def worldX (cfg : TileConfig) (tileX : ℤ) : ℚ := (tileX : ℚ) * cfg.size

/-- Virtual tile start (`get virtualWorldX` / `virtualWorldZ`). -/
def virtualWorldX (cfg : TileConfig) (tileX : ℤ) : ℚ :=
  worldX cfg tileX - overlapWorldSize cfg

/-- Virtual tile extent (`get virtualSize`). -/
def virtualSize (cfg : TileConfig) : ℚ :=
  cfg.size + 2 * overlapWorldSize cfg

/-- Tile center (`get centerX` / `centerZ`). -/
def centerX (cfg : TileConfig) (tileX : ℤ) : ℚ :=
  worldX cfg tileX + cfg.size / 2

/-- Raw height generation of the V2 tile (`generateRawHeightMap`): the
vertex at flat index `i * virtualVertexCount + j` samples
`fractalNoise2D(x / noiseScale, z / noiseScale) * heightScale` at the
world coordinates of the virtual grid point. -/
def generateRawHeightMap (cfg : TileConfig) (tileX tileZ : ℤ) : HMap :=
  fun idx =>
    let N : ℤ := (virtualVertexCount cfg : ℤ)
    let i : ℤ := idx / N
    let j : ℤ := idx.emod N
    let z : ℚ := virtualWorldX cfg tileZ + (i : ℚ) * segmentSize cfg
    let x : ℚ := virtualWorldX cfg tileX + (j : ℚ) * segmentSize cfg
    PerlinNoise.fractalNoise2Dd (PerlinNoise.construct cfg.seed)
      (x / cfg.noiseScale) (z / cfg.noiseScale) * cfg.heightScale

/-- Erosion pass of the V2 tile (`applyErosion`): passthrough when
disabled, else the configured erosion run on a clone (`erodeF` is the
oracle for the in-place `Erosion.erode` call). -/
def applyErosion (cfg : TileConfig) (erodeF : HMap → HMap) (hm : HMap) : HMap :=
  if cfg.erosionEnabled = false then hm else erodeF hm

/-- Height pipeline of the V2 tile starting from empty caches
(`generateHeightMap`). -/
def generateHeightMap (cfg : TileConfig) (erodeF : HMap → HMap)
    (tileX tileZ : ℤ) : HMap :=
  applyErosion cfg erodeF (generateRawHeightMap cfg tileX tileZ)

/-- Height query with bilinear interpolation (`getHeightAt`): `none`
outside the virtual bounds, else the bilinear interpolation of the four
enclosing grid heights (grid indices clamped to `virtualSegments`). -/
def getHeightAt (cfg : TileConfig) (tileX tileZ : ℤ) (heightMap : HMap)
    (wX wZ : ℚ) : Option ℚ :=
  let localX := wX - virtualWorldX cfg tileX
  let localZ := wZ - virtualWorldX cfg tileZ
  if localX < 0 ∨ localX > virtualSize cfg
      ∨ localZ < 0 ∨ localZ > virtualSize cfg then none
  else
    let N : ℤ := (virtualVertexCount cfg : ℤ)
    let gridX := localX / segmentSize cfg
    let gridZ := localZ / segmentSize cfg
    let x0 : ℤ := ⌊gridX⌋
    let z0 : ℤ := ⌊gridZ⌋
    let x1 : ℤ := min (x0 + 1) ((virtualSegments cfg : ℤ))
    let z1 : ℤ := min (z0 + 1) ((virtualSegments cfg : ℤ))
    let fx := gridX - (x0 : ℚ)
    let fz := gridZ - (z0 : ℚ)
    let h00 := heightMap (z0 * N + x0)
    let h10 := heightMap (z0 * N + x1)
    let h01 := heightMap (z1 * N + x0)
    let h11 := heightMap (z1 * N + x1)
    let h0 := h00 * (1 - fx) + h10 * fx
    let h1 := h01 * (1 - fx) + h11 * fx
    some (h0 * (1 - fz) + h1 * fz)

/-- Scenario A configuration: the default tile configuration
(size 32, segments 64, noiseScale 8, heightScale 4, overlapSegments 4)
with seed 12345 and erosion disabled. -/
def scenarioConfig : TileConfig := ⟨32, 64, 8, 4, 12345, false, 4⟩

end MapTileV2

/-- Helper for C9: with the scenario configuration, the local coordinate of
the tile center inside the virtual area is 18. -/
theorem scenario_local_center (t : ℤ) :
    MapTileV2.centerX MapTileV2.scenarioConfig t
      - MapTileV2.virtualWorldX MapTileV2.scenarioConfig t = 18 := by
  simp only [MapTileV2.centerX, MapTileV2.virtualWorldX, MapTileV2.worldX,
    MapTileV2.overlapWorldSize, MapTileV2.segmentSize, MapTileV2.scenarioConfig]
  ring_nf

/-- Helper for C9: the raw heightmap vertex at flat index 2664
(row 36, column 36 of the 73-vertex grid) is the fractal sample at the
tile center. -/
theorem scenario_raw_at_center (tileX tileZ : ℤ) :
    MapTileV2.generateRawHeightMap MapTileV2.scenarioConfig tileX tileZ 2664
      = PerlinNoise.fractalNoise2Dd (PerlinNoise.construct 12345)
          (MapTileV2.centerX MapTileV2.scenarioConfig tileX / 8)
          (MapTileV2.centerX MapTileV2.scenarioConfig tileZ / 8) * 4 := by
  simp only [MapTileV2.generateRawHeightMap]
  rw [show ((MapTileV2.virtualVertexCount MapTileV2.scenarioConfig : ℤ)) = 73
    from by decide]
  rw [show (2664 : ℤ) / 73 = 36 from by decide]
  rw [show Int.emod 2664 73 = 36 from by decide]
  have hx : MapTileV2.virtualWorldX MapTileV2.scenarioConfig tileX
      + ((36 : ℤ) : ℚ) * MapTileV2.segmentSize MapTileV2.scenarioConfig
      = MapTileV2.centerX MapTileV2.scenarioConfig tileX := by
    simp only [MapTileV2.virtualWorldX, MapTileV2.worldX,
      MapTileV2.overlapWorldSize, MapTileV2.segmentSize, MapTileV2.centerX,
      MapTileV2.scenarioConfig]
    norm_num
    ring
  have hz : MapTileV2.virtualWorldX MapTileV2.scenarioConfig tileZ
      + ((36 : ℤ) : ℚ) * MapTileV2.segmentSize MapTileV2.scenarioConfig
      = MapTileV2.centerX MapTileV2.scenarioConfig tileZ := by
    simp only [MapTileV2.virtualWorldX, MapTileV2.worldX,
      MapTileV2.overlapWorldSize, MapTileV2.segmentSize, MapTileV2.centerX,
      MapTileV2.scenarioConfig]
    norm_num
    ring
  rw [hx, hz]
  norm_num [MapTileV2.scenarioConfig]

/-- C9: for a tile generated with the default configuration (size 32,
segments 64, noiseScale 8, heightScale 4, overlapSegments 4), seed 12345
and erosion disabled, querying getHeightAt at the tile-local center
(centerX, centerZ) returns exactly the fractal noise sample at that world
coordinate divided by noiseScale, multiplied by heightScale — for every
tile position and every erosion oracle (which is bypassed). -/
theorem claim_C9_center_height (erodeF : HMap → HMap) (tileX tileZ : ℤ) :
    MapTileV2.getHeightAt MapTileV2.scenarioConfig tileX tileZ
        (MapTileV2.generateHeightMap MapTileV2.scenarioConfig erodeF tileX tileZ)
        (MapTileV2.centerX MapTileV2.scenarioConfig tileX)
        (MapTileV2.centerX MapTileV2.scenarioConfig tileZ)
      = some (PerlinNoise.fractalNoise2Dd (PerlinNoise.construct 12345)
          (MapTileV2.centerX MapTileV2.scenarioConfig tileX / 8)
          (MapTileV2.centerX MapTileV2.scenarioConfig tileZ / 8) * 4) := by
  have hgen : MapTileV2.generateHeightMap MapTileV2.scenarioConfig erodeF
      tileX tileZ = MapTileV2.generateRawHeightMap MapTileV2.scenarioConfig
      tileX tileZ := by
    simp [MapTileV2.generateHeightMap, MapTileV2.applyErosion,
      MapTileV2.scenarioConfig]
  rw [hgen]
  simp only [MapTileV2.getHeightAt]
  rw [scenario_local_center tileX, scenario_local_center tileZ]
  rw [show MapTileV2.virtualSize MapTileV2.scenarioConfig = 36 from by
    norm_num [MapTileV2.virtualSize, MapTileV2.overlapWorldSize,
      MapTileV2.segmentSize, MapTileV2.scenarioConfig]]
  rw [if_neg (by norm_num)]
  rw [show (18 : ℚ) / MapTileV2.segmentSize MapTileV2.scenarioConfig = 36
    from by norm_num [MapTileV2.segmentSize, MapTileV2.scenarioConfig]]
  rw [show ⌊(36 : ℚ)⌋ = (36 : ℤ) from by norm_num]
  rw [show ((MapTileV2.virtualSegments MapTileV2.scenarioConfig : ℤ)) = 72
    from by decide]
  rw [show min ((36 : ℤ) + 1) 72 = 37 from by decide]
  rw [show ((MapTileV2.virtualVertexCount MapTileV2.scenarioConfig : ℤ)) = 73
    from by decide]
  norm_num
  rw [scenario_raw_at_center tileX tileZ]
